import Mathlib

-- Shallow embedding of the content-decoding and page-composition core of
-- teticio/kindle2pdf (src/kindle2pdf.py).  Byte strings are lists of Nat
-- (each < 256 where it matters), Python str values holding ASCII text are
-- lists of Nat byte codes or lists of Char, and floats are rationals.
-- Library collaborators (the cryptography package and the PDF canvas) are
-- modelled at their interface: the AES-128 block function and the PBKDF2
-- key-derivation function are abstract parameters, while the base64 codec
-- and the GCM mode construction (counter-mode keystream, GHASH tag) are
-- implemented concretely.

set_option maxRecDepth 100000

namespace Kindle2PDF

-- ## Base64 (models Python base64.b64encode / b64decode on canonically
-- padded data; b64decode refuses input whose length is not a multiple of
-- four or that contains characters outside the standard alphabet).

def b64EncChar (s : Nat) : Nat :=
  if s < 26 then 65 + s
  else if s < 52 then 71 + s
  else if s < 62 then s - 4
  else if s = 62 then 43
  else 47

def b64DecChar (c : Nat) : Option Nat :=
  if 65 ≤ c ∧ c ≤ 90 then some (c - 65)
  else if 97 ≤ c ∧ c ≤ 122 then some (c - 71)
  else if 48 ≤ c ∧ c ≤ 57 then some (c + 4)
  else if c = 43 then some 62
  else if c = 47 then some 63
  else none

def b64encode : List Nat → List Nat
  | [] => []
  | [a] => [b64EncChar (a / 4), b64EncChar (a % 4 * 16), 61, 61]
  | [a, b] =>
      [b64EncChar (a / 4), b64EncChar (a % 4 * 16 + b / 16),
       b64EncChar (b % 16 * 4), 61]
  | a :: b :: c :: rest =>
      b64EncChar (a / 4) :: b64EncChar (a % 4 * 16 + b / 16) ::
      b64EncChar (b % 16 * 4 + c / 64) :: b64EncChar (c % 64) :: b64encode rest

def b64decode : List Nat → Option (List Nat)
  | [] => some []
  | w :: x :: y :: z :: rest =>
      match b64DecChar w, b64DecChar x with
      | some s0, some s1 =>
        if y = 61 ∧ z = 61 ∧ rest = [] then
          some [s0 * 4 + s1 / 16]
        else if z = 61 ∧ rest = [] then
          match b64DecChar y with
          | some s2 => some [s0 * 4 + s1 / 16, s1 % 16 * 16 + s2 / 4]
          | none => none
        else
          match b64DecChar y, b64DecChar z with
          | some s2, some s3 =>
            match b64decode rest with
            | some bs =>
                some ((s0 * 4 + s1 / 16) :: (s1 % 16 * 16 + s2 / 4) ::
                      (s2 % 4 * 64 + s3) :: bs)
            | none => none
          | _, _ => none
      | _, _ => none
  | _ => none

theorem b64DecChar_b64EncChar {s : Nat} (h : s < 64) :
    b64DecChar (b64EncChar s) = some s ∧ b64EncChar s ≠ 61 := by
  revert h
  revert s
  decide

theorem b64encode_length (l : List Nat) :
    (b64encode l).length = 4 * ((l.length + 2) / 3) := by
  induction l using b64encode.induct with
  | case1 => simp [b64encode]
  | case2 a => simp [b64encode]
  | case3 a b => simp [b64encode]
  | case4 a b c rest ih =>
      simp only [b64encode, List.length_cons, ih]
      omega

theorem b64decode_b64encode (l : List Nat) (hl : ∀ b ∈ l, b < 256) :
    b64decode (b64encode l) = some l := by
  induction l using b64encode.induct with
  | case1 => simp [b64encode, b64decode]
  | case2 a =>
      have ha : a < 256 := hl a (by simp)
      have h0 := b64DecChar_b64EncChar (s := a / 4) (by omega)
      have h1 := b64DecChar_b64EncChar (s := a % 4 * 16) (by omega)
      simp [b64encode, b64decode, h0.1, h1.1]
      omega
  | case3 a b =>
      have ha : a < 256 := hl a (by simp)
      have hb : b < 256 := hl b (by simp)
      have h0 := b64DecChar_b64EncChar (s := a / 4) (by omega)
      have h1 := b64DecChar_b64EncChar (s := a % 4 * 16 + b / 16) (by omega)
      have h2 := b64DecChar_b64EncChar (s := b % 16 * 4) (by omega)
      simp [b64encode, b64decode, h0.1, h1.1, h2.1, h2.2]
      omega
  | case4 a b c rest ih =>
      have ha : a < 256 := hl a (by simp)
      have hb : b < 256 := hl b (by simp)
      have hc : c < 256 := hl c (by simp)
      have hrest : ∀ x ∈ rest, x < 256 := by
        intro x hx
        exact hl x (by simp [hx])
      have h0 := b64DecChar_b64EncChar (s := a / 4) (by omega)
      have h1 := b64DecChar_b64EncChar (s := a % 4 * 16 + b / 16) (by omega)
      have h2 := b64DecChar_b64EncChar (s := b % 16 * 4 + c / 64) (by omega)
      have h3 := b64DecChar_b64EncChar (s := c % 64) (by omega)
      simp [b64encode, b64decode, h0.1, h1.1, h2.1, h2.2, h3.1, h3.2,
        ih hrest]
      omega

theorem b64decode_length_le (s bs : List Nat) (h : b64decode s = some bs) :
    bs.length ≤ s.length := by
  induction s using b64decode.induct generalizing bs with
  | case1 =>
      simp only [b64decode, Option.some.injEq] at h
      simp [← h]
  | case2 w x y z rest s0 s1 hx hw hc1 =>
      simp only [b64decode, hw, hx, if_pos hc1, Option.some.injEq] at h
      simp [← h]
  | case3 w x y z rest s0 s1 hx hw hc1 hc2 s2 hy =>
      simp only [b64decode, hw, hx, if_neg hc1, if_pos hc2, hy,
        Option.some.injEq] at h
      simp [← h]
  | case4 w x y z rest s0 s1 hx hw hc1 hc2 hy =>
      simp [b64decode, hw, hx, if_neg hc1, if_pos hc2, hy] at h
  | case5 w x y z rest s0 s1 hx hw hc1 hc2 s2 s3 hz hy bs2 hrec ih =>
      have hlen := ih bs2 hrec
      simp only [b64decode, hw, hx, if_neg hc1, if_neg hc2, hy, hz, hrec,
        Option.some.injEq] at h
      simp only [← h, List.length_cons]
      omega
  | case6 w x y z rest s0 s1 hx hw hc1 hc2 s2 s3 hz hy hrec ih =>
      simp [b64decode, hw, hx, if_neg hc1, if_neg hc2, hy, hz, hrec] at h
  | case7 w x y z rest s0 s1 hx hw hc1 hc2 hfail =>
      rcases hyy : b64DecChar y with _ | s2
      · simp [b64decode, hw, hx, if_neg hc1, if_neg hc2, hyy] at h
      · rcases hzz : b64DecChar z with _ | s3
        · simp [b64decode, hw, hx, if_neg hc1, if_neg hc2, hyy, hzz] at h
        · exact (hfail s2 s3 hyy hzz).elim
  | case8 w x y z rest hfail =>
      rcases hww : b64DecChar w with _ | s0
      · simp [b64decode, hww] at h
      · rcases hxx : b64DecChar x with _ | s1
        · simp [b64decode, hww, hxx] at h
        · exact (hfail s0 s1 hww hxx).elim
  | case9 t hne hnot4 =>
      rcases t with _ | ⟨a, _ | ⟨b, _ | ⟨c, _ | ⟨d, t⟩⟩⟩⟩
      · exact (hne rfl).elim
      · simp [b64decode] at h
      · simp [b64decode] at h
      · simp [b64decode] at h
      · exact (hnot4 a b c d t rfl).elim

-- ## AES-GCM.  The cryptography-library collaborator
-- Cipher(algorithms.AES(key), modes.GCM(iv, tag)) is modelled with the
-- AES-128 block function E abstract (a parameter) and the GCM mode
-- construction concrete, following NIST SP 800-38D: counter-mode keystream
-- starting one past the pre-counter block J0, and a GHASH tag over the
-- additional authenticated data and the ciphertext.

def xorBytes (a b : List Nat) : List Nat :=
  List.zipWith (fun x y => x ^^^ y) a b

def bytesToNat (l : List Nat) : Nat :=
  l.foldl (fun acc b => acc * 256 + b) 0

def natToBytesBE : Nat → Nat → List Nat
  | 0, _ => []
  | k + 1, n => (n / 256 ^ k % 256) :: natToBytesBE k n

-- The GHASH reduction constant R = 0xE1 followed by 120 zero bits.
def gcmR : Nat := 225 * 2 ^ 120

def gfMulLoop : Nat → Nat → Nat → Nat → Nat
  | 0, z, _, _ => z
  | n + 1, z, v, x =>
      gfMulLoop n (if x / 2 ^ 127 % 2 = 1 then z ^^^ v else z)
        (if v % 2 = 1 then v / 2 ^^^ gcmR else v / 2) (x * 2 % 2 ^ 128)

def gfMul (x y : Nat) : Nat := gfMulLoop 128 0 y x

-- Split a byte string into 16-byte blocks (the last one possibly short).
-- The list length is a fuel bound: every step consumes at least one byte,
-- so the recursion is structural and reduces inside the kernel.
def chunks16Aux : Nat → List Nat → List (List Nat)
  | 0, _ => []
  | _, [] => []
  | fuel + 1, a :: l => ((a :: l).take 16) :: chunks16Aux fuel ((a :: l).drop 16)

def chunks16 (l : List Nat) : List (List Nat) := chunks16Aux l.length l

def pad16 (l : List Nat) : List Nat :=
  l ++ List.replicate ((16 - l.length % 16) % 16) 0

def ghash (h : Nat) (blocks : List (List Nat)) : Nat :=
  blocks.foldl (fun y b => gfMul (y ^^^ bytesToNat b) h) 0

def lenBlock (aad ct : List Nat) : List Nat :=
  natToBytesBE 8 (8 * aad.length) ++ natToBytesBE 8 (8 * ct.length)

def gcmJ0 (h : Nat) (iv : List Nat) : List Nat :=
  if iv.length = 12 then iv ++ [0, 0, 0, 1]
  else
    natToBytesBE 16
      (ghash h (chunks16 (pad16 iv) ++
        [natToBytesBE 8 0 ++ natToBytesBE 8 (8 * iv.length)]))

def inc32 (b : List Nat) (k : Nat) : List Nat :=
  b.take 12 ++ natToBytesBE 4 ((bytesToNat (b.drop 12) + k) % 2 ^ 32)

def gcmKeystream (E : List Nat → List Nat → List Nat) (key j0 : List Nat)
    (n : Nat) : List Nat :=
  (((List.range ((n + 15) / 16)).map
    (fun i => E key (inc32 j0 (i + 1)))).flatten).take n

def gcmTag (E : List Nat → List Nat → List Nat)
    (key iv aad ct : List Nat) : List Nat :=
  let h := bytesToNat (E key (List.replicate 16 0))
  let s := ghash h
    (chunks16 (pad16 aad) ++ chunks16 (pad16 ct) ++ [lenBlock aad ct])
  xorBytes (E key (gcmJ0 h iv)) (natToBytesBE 16 s)

def gcmCtr (E : List Nat → List Nat → List Nat)
    (key iv data : List Nat) : List Nat :=
  let h := bytesToNat (E key (List.replicate 16 0))
  xorBytes data (gcmKeystream E key (gcmJ0 h iv) data.length)

-- decryptor.authenticate_additional_data(aad); decryptor.update(ct) +
-- decryptor.finalize().  finalize raises InvalidTag when the supplied tag
-- does not match the recomputed one; modes.GCM itself rejects an empty IV
-- and a tag shorter than its 16-byte minimum length.
def gcmDecrypt (E : List Nat → List Nat → List Nat)
    (key iv aad ct tag : List Nat) : Except String (List Nat) :=
  if iv.length = 0 then Except.error "Invalid IV size"
  else if tag.length < 16 then
    Except.error "Authentication tag must be 16 bytes or longer"
  else if tag = gcmTag E key iv aad ct then Except.ok (gcmCtr E key iv ct)
  else Except.error "InvalidTag"

-- ## Asset decryptor (Kindle2PDF.decrypt_images).  auth is the
-- karamelToken dictionary; kdf abstracts
-- PBKDF2HMAC(SHA256, length=16, salt, iterations=1000).derive applied to
-- the password (first argument) and the per-payload salt (second).

structure Auth where
  token : List Nat
  expiresAt : Nat

-- i = auth["expiresAt"] % 60 ; p = auth["token"][i : i + 40]
def authWindow (auth : Auth) : List Nat :=
  (auth.token.drop (auth.expiresAt % 60)).take 40

def decryptPayload (E kdf : List Nat → List Nat → List Nat)
    (auth : Auth) (payload : List Nat) : Except String (List Nat) :=
  let p := authWindow auth
  match b64decode (payload.take 24), b64decode ((payload.drop 24).take 24),
      b64decode (payload.drop 48) with
  | some salt, some iv, some data =>
      let key := kdf p salt
      let tagLength := 16
      let encryptedDataWithoutTag := data.take (data.length - tagLength)
      let tag := data.drop (data.length - tagLength)
      gcmDecrypt E key iv (p.take 9) encryptedDataWithoutTag tag
  | _, _, _ => Except.error "binascii"

def decryptImages (E kdf : List Nat → List Nat → List Nat) (auth : Auth) :
    List (List Char × List Nat) →
      Except String (List (List Char × List Nat))
  | [] => Except.ok []
  | (k, v) :: rest =>
      match decryptPayload E kdf auth v with
      | Except.ok w =>
          match decryptImages E kdf auth rest with
          | Except.ok out => Except.ok ((k, w) :: out)
          | Except.error e => Except.error e
      | Except.error e => Except.error e

-- Transcription of the wording of the specification (sections 4.1 and the
-- C2 sources): p is the 40-character window of the token at offset
-- expiresAt mod 60; characters [0:24) of the payload decode to the salt,
-- characters [24:48) to the IV, characters [48:] to ciphertext with the
-- last 16 decoded bytes as the authentication tag; the key is derived
-- from p with the payload-specific salt, and AES-GCM runs with the first
-- 9 bytes of p as additional authenticated data.
def decryptPayloadSpec (E kdf : List Nat → List Nat → List Nat)
    (auth : Auth) (payload : List Nat) : Except String (List Nat) :=
  let i := auth.expiresAt % 60
  let p := (auth.token.drop i).take 40
  match b64decode (payload.take 24), b64decode ((payload.take 48).drop 24),
      b64decode (payload.drop 48) with
  | some salt, some iv, some data =>
      gcmDecrypt E (kdf p salt) iv (p.take 9) (data.rdrop 16) (data.rtake 16)
  | _, _, _ => Except.error "binascii"

-- Modelled from the spec: the encryption routine inverse to the decryptor
-- is not part of the repository; section 4.1 documents the payload layout
-- (base64 of the salt, then of the IV, then of ciphertext plus tag) and
-- the AES-GCM scheme with key derived from the token window and the first
-- 9 bytes of that window as additional authenticated data.
def encryptPayload (E kdf : List Nat → List Nat → List Nat)
    (auth : Auth) (salt iv pt : List Nat) : List Nat :=
  let p := authWindow auth
  let key := kdf p salt
  let h := bytesToNat (E key (List.replicate 16 0))
  let ct := xorBytes pt (gcmKeystream E key (gcmJ0 h iv) pt.length)
  let tag := gcmTag E key iv (p.take 9) ct
  b64encode salt ++ b64encode iv ++ b64encode (ct ++ tag)

-- ## Helper lemmas about the decryptor.

theorem decryptPayload_eq_spec (E kdf : List Nat → List Nat → List Nat)
    (auth : Auth) (payload : List Nat) :
    decryptPayload E kdf auth payload = decryptPayloadSpec E kdf auth payload := by
  have hmid : (payload.take 48).drop 24 = (payload.drop 24).take 24 := by
    rw [List.drop_take]
  unfold decryptPayload decryptPayloadSpec authWindow
  rw [hmid]
  rfl

theorem decryptImages_forall2 (E kdf : List Nat → List Nat → List Nat)
    (auth : Auth) (images out : List (List Char × List Nat))
    (h : decryptImages E kdf auth images = Except.ok out) :
    List.Forall₂
      (fun kv kw => kw.1 = kv.1 ∧
        decryptPayload E kdf auth kv.2 = Except.ok kw.2) images out := by
  induction images generalizing out with
  | nil =>
      simp only [decryptImages, Except.ok.injEq] at h
      simp [← h]
  | cons kv rest ih =>
      obtain ⟨k, v⟩ := kv
      simp only [decryptImages] at h
      cases hp : decryptPayload E kdf auth v with
      | error e => simp [hp] at h
      | ok w =>
          simp only [hp] at h
          cases hr : decryptImages E kdf auth rest with
          | error e => simp [hr] at h
          | ok out2 =>
              simp only [hr, Except.ok.injEq] at h
              subst h
              exact List.Forall₂.cons ⟨rfl, hp⟩ (ih out2 hr)

theorem natToBytesBE_length (k n : Nat) : (natToBytesBE k n).length = k := by
  induction k generalizing n with
  | zero => simp [natToBytesBE]
  | succ k ih => simp [natToBytesBE, ih]

theorem natToBytesBE_lt (k n : Nat) : ∀ b ∈ natToBytesBE k n, b < 256 := by
  induction k generalizing n with
  | zero => simp [natToBytesBE]
  | succ k ih =>
      intro b hb
      simp only [natToBytesBE, List.mem_cons] at hb
      rcases hb with hb | hb
      · omega
      · exact ih n b hb

theorem xorBytes_length (a b : List Nat) :
    (xorBytes a b).length = min a.length b.length := by
  simp [xorBytes]

theorem gcmTag_length (E : List Nat → List Nat → List Nat)
    (key iv aad ct : List Nat) (hE : ∀ b, (E key b).length = 16) :
    (gcmTag E key iv aad ct).length = 16 := by
  simp [gcmTag, xorBytes_length, hE, natToBytesBE_length]

theorem gcmKeystream_length (E : List Nat → List Nat → List Nat)
    (key j0 : List Nat) (n : Nat) (hE : ∀ b, (E key b).length = 16) :
    (gcmKeystream E key j0 n).length = n := by
  unfold gcmKeystream
  rw [List.length_take]
  have hflat : ∀ m : Nat,
      (((List.range m).map (fun i => E key (inc32 j0 (i + 1)))).flatten).length
        = 16 * m := by
    intro m
    rw [List.length_flatten, List.map_map]
    have hmap : (List.range m).map
        (List.length ∘ fun i => E key (inc32 j0 (i + 1)))
          = (List.range m).map (fun _ => 16) := by
      apply List.map_congr_left
      intro i _
      simp [hE]
    rw [hmap, List.map_const', List.sum_replicate]
    simp [smul_eq_mul, List.length_range, Nat.mul_comm]
  rw [hflat]
  omega

theorem xorBytes_cancel (p ks : List Nat) (h : ks.length = p.length) :
    xorBytes (xorBytes p ks) ks = p := by
  induction p generalizing ks with
  | nil =>
      cases ks with
      | nil => simp [xorBytes]
      | cons b u => simp at h
  | cons a t ih =>
      cases ks with
      | nil => simp at h
      | cons b u =>
          simp only [List.length_cons] at h
          simp only [xorBytes, List.zipWith_cons_cons]
          rw [show a ^^^ b ^^^ b = a from Nat.xor_cancel_right b a]
          have := ih u (by omega)
          simp only [xorBytes] at this
          rw [this]

theorem gcmDecrypt_ok (E : List Nat → List Nat → List Nat)
    (key iv aad ct tag w : List Nat)
    (h : gcmDecrypt E key iv aad ct tag = Except.ok w) :
    16 ≤ tag.length ∧ w = gcmCtr E key iv ct := by
  unfold gcmDecrypt at h
  split_ifs at h with h1 h2 h3
  · simp only [Except.ok.injEq] at h
    exact ⟨by omega, h.symm⟩

theorem decryptPayload_shrinks (E kdf : List Nat → List Nat → List Nat)
    (auth : Auth) (payload w : List Nat)
    (h : decryptPayload E kdf auth payload = Except.ok w) :
    w.length + 64 ≤ payload.length := by
  unfold decryptPayload at h
  cases h1 : b64decode (payload.take 24) with
  | none => simp [h1] at h
  | some salt =>
  cases h2 : b64decode ((payload.drop 24).take 24) with
  | none => simp [h1, h2] at h
  | some iv =>
  cases h3 : b64decode (payload.drop 48) with
  | none => simp [h1, h2, h3] at h
  | some data =>
  simp only [h1, h2, h3] at h
  obtain ⟨htag, hw⟩ := gcmDecrypt_ok _ _ _ _ _ _ _ h
  have hdata : data.length ≤ (payload.drop 48).length :=
    b64decode_length_le _ _ h3
  rw [List.length_drop] at hdata
  have htag2 : (data.drop (data.length - 16)).length = 16 := by
    rw [List.length_drop] at htag ⊢
    omega
  have hct : (data.take (data.length - 16)).length = data.length - 16 := by
    rw [List.length_take]
    omega
  have hwlen : w.length ≤ data.length - 16 := by
    rw [hw]
    unfold gcmCtr
    rw [xorBytes_length, hct]
    omega
  rw [List.length_drop] at htag
  omega

theorem xorBytes_lt (a b : List Nat) (ha : ∀ x ∈ a, x < 256)
    (hb : ∀ x ∈ b, x < 256) : ∀ x ∈ xorBytes a b, x < 256 := by
  induction a generalizing b with
  | nil => simp [xorBytes]
  | cons x t ih =>
      cases b with
      | nil => simp [xorBytes]
      | cons y u =>
          intro z hz
          simp only [xorBytes, List.zipWith_cons_cons, List.mem_cons] at hz
          rcases hz with rfl | hz
          · have hx : x < 2 ^ 8 := by
              have := ha x (by simp)
              omega
            have hy : y < 2 ^ 8 := by
              have := hb y (by simp)
              omega
            have := Nat.xor_lt_two_pow hx hy
            omega
          · exact ih u (fun w hw => ha w (by simp [hw]))
              (fun w hw => hb w (by simp [hw])) z hz

theorem gcmKeystream_lt (E : List Nat → List Nat → List Nat)
    (key j0 : List Nat) (n : Nat) (hE2 : ∀ b x, x ∈ E key b → x < 256) :
    ∀ b ∈ gcmKeystream E key j0 n, b < 256 := by
  intro b hb
  unfold gcmKeystream at hb
  have hb2 := List.mem_of_mem_take hb
  rw [List.mem_flatten] at hb2
  obtain ⟨l, hl, hbl⟩ := hb2
  rw [List.mem_map] at hl
  obtain ⟨i, _, rfl⟩ := hl
  exact hE2 _ b hbl

/-- C3: for every non-empty plaintext payload and every auth key material,
encrypting the payload under the documented scheme (payload-specific salt,
AES-128-GCM with the derived key, IV, tag and AAD, base64-encoded in the
documented layout) and then running the decryptor on it reproduces the
original plaintext exactly.  The AES block function E is abstract, subject
to returning 16-byte blocks, and the key-derivation function is abstract. -/
theorem c3_encrypt_decrypt_roundtrip
    (E kdf : List Nat → List Nat → List Nat) (auth : Auth)
    (salt iv pt : List Nat)
    (hE : ∀ k b, (E k b).length = 16)
    (hE2 : ∀ k b x, x ∈ E k b → x < 256)
    (hsalt : salt.length = 16) (hiv : iv.length = 16)
    (hsalt2 : ∀ b ∈ salt, b < 256) (hiv2 : ∀ b ∈ iv, b < 256)
    (hpt : ∀ b ∈ pt, b < 256) (hne : pt ≠ []) :
    decryptPayload E kdf auth (encryptPayload E kdf auth salt iv pt)
      = Except.ok pt := by
  set p := authWindow auth with hpdef
  set key := kdf p salt with hkdef
  set hsub := bytesToNat (E key (List.replicate 16 0)) with hhdef
  set ks := gcmKeystream E key (gcmJ0 hsub iv) pt.length with hksdef
  set ct := xorBytes pt ks with hctdef
  set tag := gcmTag E key iv (p.take 9) ct with htagdef
  have henc : encryptPayload E kdf auth salt iv pt
      = b64encode salt ++ b64encode iv ++ b64encode (ct ++ tag) := rfl
  have hkey : ∀ b, (E key b).length = 16 := fun b => hE key b
  have hkslen : ks.length = pt.length :=
    gcmKeystream_length E key (gcmJ0 hsub iv) pt.length hkey
  have hctlen : ct.length = pt.length := by
    rw [hctdef, xorBytes_length, hkslen, Nat.min_self]
  have htaglen : tag.length = 16 := gcmTag_length E key iv (p.take 9) ct hkey
  have he1 : (b64encode salt).length = 24 := by
    rw [b64encode_length, hsalt]
  have he2 : (b64encode iv).length = 24 := by
    rw [b64encode_length, hiv]
  have hks2 : ∀ b ∈ ks, b < 256 :=
    gcmKeystream_lt E key (gcmJ0 hsub iv) pt.length (fun b => hE2 key b)
  have hct2 : ∀ b ∈ ct, b < 256 := xorBytes_lt pt ks hpt hks2
  have htag2 : ∀ b ∈ tag, b < 256 := by
    have htag3 : tag = xorBytes (E key (gcmJ0 hsub iv))
        (natToBytesBE 16 (ghash hsub
          (chunks16 (pad16 (p.take 9)) ++ chunks16 (pad16 ct) ++
            [lenBlock (p.take 9) ct]))) := rfl
    rw [htag3]
    exact xorBytes_lt _ _ (fun x hx => hE2 key _ x hx)
      (natToBytesBE_lt 16 _)
  have hdata2 : ∀ b ∈ ct ++ tag, b < 256 := by
    intro b hb
    rcases List.mem_append.mp hb with hcase | hcase
    · exact hct2 b hcase
    · exact htag2 b hcase
  have t1 : (b64encode salt ++ (b64encode iv ++ b64encode (ct ++ tag))).take 24
      = b64encode salt := by
    rw [← he1, List.take_left]
  have t2 : (b64encode salt ++ (b64encode iv ++ b64encode (ct ++ tag))).drop 24
      = b64encode iv ++ b64encode (ct ++ tag) := by
    rw [← he1, List.drop_left]
  have t3 : (b64encode iv ++ b64encode (ct ++ tag)).take 24 = b64encode iv := by
    rw [← he2, List.take_left]
  have t4 : (b64encode salt ++ (b64encode iv ++ b64encode (ct ++ tag))).drop 48
      = b64encode (ct ++ tag) := by
    have h48 : (48 : Nat) = 24 + 24 := rfl
    rw [h48, ← List.drop_drop, t2, ← he2, List.drop_left]
  have hstep : decryptPayload E kdf auth
      (b64encode salt ++ b64encode iv ++ b64encode (ct ++ tag))
      = gcmDecrypt E key iv (p.take 9)
          ((ct ++ tag).take ((ct ++ tag).length - 16))
          ((ct ++ tag).drop ((ct ++ tag).length - 16)) := by
    unfold decryptPayload
    rw [List.append_assoc, t1, t2, t3, t4,
      b64decode_b64encode salt hsalt2, b64decode_b64encode iv hiv2,
      b64decode_b64encode (ct ++ tag) hdata2]
  have hlen3 : (ct ++ tag).length - 16 = ct.length := by
    rw [List.length_append, htaglen]
    omega
  have t5 : (ct ++ tag).take ((ct ++ tag).length - 16) = ct := by
    rw [hlen3]
    exact List.take_left ct tag
  have t6 : (ct ++ tag).drop ((ct ++ tag).length - 16) = tag := by
    rw [hlen3]
    exact List.drop_left ct tag
  rw [henc, hstep, t5, t6]
  unfold gcmDecrypt
  rw [if_neg (by rw [hiv]; omega), if_neg (by rw [htaglen]; omega),
    if_pos rfl]
  have hctr : gcmCtr E key iv ct = pt := by
    have hctr2 : gcmCtr E key iv ct
        = xorBytes ct (gcmKeystream E key (gcmJ0 hsub iv) ct.length) := rfl
    rw [hctr2, hctlen, hctdef]
    exact xorBytes_cancel pt ks hkslen
  rw [hctr]

/-- Closed witness for the C3 roundtrip at a concrete payload and toy
block cipher. -/
theorem c3_encrypt_decrypt_roundtrip_witness :
    decryptPayload (fun _ _ => List.replicate 16 0) (fun _ _ => [])
      ⟨List.replicate 64 65, 0⟩
      (encryptPayload (fun _ _ => List.replicate 16 0) (fun _ _ => [])
        ⟨List.replicate 64 65, 0⟩ (List.replicate 16 0)
        (List.replicate 16 1) [1, 2, 3])
      = Except.ok [1, 2, 3] :=
  c3_encrypt_decrypt_roundtrip (fun _ _ => List.replicate 16 0)
    (fun _ _ => []) ⟨List.replicate 64 65, 0⟩ (List.replicate 16 0)
    (List.replicate 16 1) [1, 2, 3]
    (fun _ _ => by simp) (fun k b x hx => by
      rw [List.eq_of_mem_replicate hx]
      omega)
    (by simp) (by simp)
    (fun b hb => by
      rw [List.eq_of_mem_replicate hb]
      omega)
    (fun b hb => by
      rw [List.eq_of_mem_replicate hb]
      omega)
    (by decide) (by decide)

-- Concrete toy instantiations of the abstract library primitives, used by
-- closed witnesses and counterexamples.
def toyE : List Nat → List Nat → List Nat := fun _ _ => List.replicate 16 0

def toyKdf : List Nat → List Nat → List Nat := fun _ _ => []

def toyAuth : Auth := ⟨List.replicate 64 65, 0⟩

def toyPayload : List Nat :=
  encryptPayload toyE toyKdf toyAuth (List.replicate 16 0)
    (List.replicate 16 1) [7]

/-- C2: for every image payload in the batch mapping, the decryptor
replaces the entry with the plaintext obtained by the documented recipe:
p is the 40-character window of the token at offset expiresAt mod 60, the
key is derived from p with the salt decoded from payload characters
[0:24), the IV is decoded from characters [24:48), the ciphertext from
characters [48:] with its last 16 bytes as the authentication tag, and
the first 9 bytes of p serve as additional authenticated data.  The
decryptor from the source coincides with a transcription of the
specification wording, and decrypt_images rewrites every mapping entry
accordingly.  The PBKDF2-HMAC-SHA256 (1000 iterations, 16 bytes) kdf and
the AES-128 block function are library collaborators held abstract. -/
theorem c2_decrypt_images_scheme (E kdf : List Nat → List Nat → List Nat) :
    (∀ auth payload,
        decryptPayload E kdf auth payload
          = decryptPayloadSpec E kdf auth payload) ∧
    ∀ auth images out,
      decryptImages E kdf auth images = Except.ok out →
      List.Forall₂ (fun kv kw => kw.1 = kv.1 ∧
        decryptPayloadSpec E kdf auth kv.2 = Except.ok kw.2) images out := by
  refine ⟨decryptPayload_eq_spec E kdf, ?_⟩
  intro auth images out h
  refine (decryptImages_forall2 E kdf auth images out h).imp ?_
  intro kv kw hab
  refine ⟨hab.1, ?_⟩
  rw [← decryptPayload_eq_spec]
  exact hab.2

/-- Closed witness for C2 at a concrete encrypted entry. -/
theorem c2_decrypt_images_scheme_witness :
    decryptPayload toyE toyKdf toyAuth toyPayload
        = decryptPayloadSpec toyE toyKdf toyAuth toyPayload ∧
    List.Forall₂ (fun kv kw => kw.1 = kv.1 ∧
        decryptPayloadSpec toyE toyKdf toyAuth kv.2 = Except.ok kw.2)
      [(['i', 'm', 'g'], toyPayload)] [(['i', 'm', 'g'], [7])] :=
  ⟨(c2_decrypt_images_scheme toyE toyKdf).1 toyAuth toyPayload,
   (c2_decrypt_images_scheme toyE toyKdf).2 toyAuth
     [(['i', 'm', 'g'], toyPayload)] [(['i', 'm', 'g'], [7])] (by rfl)⟩

/-- C5 counterexample: a mapping entry holding plaintext bytes (the JPEG
start-of-image marker 255, 216, 255) is not left unchanged without error:
decrypt_images unconditionally attempts base64 decoding and authenticated
decryption on it, and fails. -/
theorem c5_counterexample :
    decryptImages toyE toyKdf toyAuth [(['i', 'm', 'g'], [255, 216, 255])]
      = Except.error "binascii" := by
  rfl

/-- C5 amended: decrypt_images attempts decryption of every payload of the
mapping in place (every entry of a successful call is the decryption of
the corresponding input entry), and it is never a no-op on an entry: a
payload that decrypts successfully is replaced by a strictly shorter
plaintext (at least 64 bytes shorter), and any other payload - in
particular one that already holds plaintext - causes an error. -/
theorem c5_amended_decrypts_in_place (E kdf : List Nat → List Nat → List Nat) :
    (∀ auth images out,
        decryptImages E kdf auth images = Except.ok out →
        List.Forall₂ (fun kv kw => kw.1 = kv.1 ∧
          decryptPayload E kdf auth kv.2 = Except.ok kw.2) images out) ∧
    ∀ auth payload w,
      decryptPayload E kdf auth payload = Except.ok w →
      w.length + 64 ≤ payload.length :=
  ⟨decryptImages_forall2 E kdf,
   fun auth payload w h => decryptPayload_shrinks E kdf auth payload w h⟩

/-- Closed witness for the amended C5 at a concrete encrypted entry. -/
theorem c5_amended_decrypts_in_place_witness :
    List.Forall₂ (fun kv kw => kw.1 = kv.1 ∧
        decryptPayload toyE toyKdf toyAuth kv.2 = Except.ok kw.2)
      [(['i', 'm', 'g'], toyPayload)] [(['i', 'm', 'g'], [7])] ∧
    ([7] : List Nat).length + 64 ≤ toyPayload.length :=
  ⟨(c5_amended_decrypts_in_place toyE toyKdf).1 toyAuth
     [(['i', 'm', 'g'], toyPayload)] [(['i', 'm', 'g'], [7])] (by rfl),
   (c5_amended_decrypts_in_place toyE toyKdf).2 toyAuth toyPayload [7]
     (by rfl)⟩

-- ## Page compositor (Kindle2PDF.render_pdf).  Python floats are
-- rationals; JSON dictionaries become structures holding the fields the
-- code reads; the reportlab canvas is modelled by a trace of the
-- operations issued to it.  The svg string built for a run child is
-- modelled structurally: one GlyphPlace per composed g element (holding
-- the horizontal translation, the fontSize / unitsPerEm scale, the path
-- data placed in the d attribute and the fill/stroke colour), the whole
-- assembly transformed by the run matrix scaled by 72 / dpi.

-- Python re.sub removes every occurrence of m followed by one or more
-- characters drawn from digits, dot, comma, minus and whitespace; moveArg
-- models that character class on the ASCII range used by path data.
def moveArg (c : Char) : Bool :=
  c.isDigit || c = '.' || c = ',' || c = '-' || c = ' ' || c = '\t' ||
    c = '\n' || c = '\r' || c = '\x0b' || c = '\x0c'

def headIsMoveArg : List Char → Bool
  | [] => false
  | d :: _ => moveArg d

-- re.sub(r"m[\d\.\,\-\s]+", "", path): scan left to right; an m followed
-- by at least one class character starts a match that greedily consumes
-- the run of class characters and is deleted; everything else is kept.
-- The list length serves as structural fuel (each step consumes at least
-- one character).
def stripMovesAux : Nat → List Char → List Char
  | 0, l => l
  | fuel + 1, l =>
    match l with
    | [] => []
    | c :: cs =>
        if c = 'm' && headIsMoveArg cs then
          stripMovesAux fuel (cs.dropWhile moveArg)
        else c :: stripMovesAux fuel cs

def stripMoves (l : List Char) : List Char := stripMovesAux l.length l

structure Transform6 where
  a : ℚ
  b : ℚ
  c : ℚ
  d : ℚ
  e : ℚ
  f : ℚ
  deriving DecidableEq

-- A record of the font glyph dictionary: path models glyph.get("path", "")
-- with none for a missing "path" key.
structure GlyphRec where
  path : Option (List Char)
  deriving DecidableEq

structure FontRec where
  fontKey : List Char
  unitsPerEm : ℚ
  glyphs : List (Nat × GlyphRec)
  deriving DecidableEq

structure GlyphPlace where
  tx : ℚ
  sc : ℚ
  d : List Char
  color : List Char
  deriving DecidableEq

-- One child dictionary of a page: type is "run" or "image" (anything else
-- draws nothing); startPositionId and link model optional keys;
-- glyphs models child.get("glyphs", []).
structure Child where
  startPositionId : Option Nat
  type : List Char
  transform : Transform6
  rectRight : ℚ
  rectBottom : ℚ
  fontKey : List Char
  glyphs : List Nat
  xPosition : List ℚ
  fontSize : ℚ
  textColor : List Char
  imageReference : List Char
  link : Option Nat
  deriving DecidableEq

structure Page where
  children : List Child
  endPositionId : Nat
  deriving DecidableEq

-- A named JSON document of the fetched tar: either a page list (the
-- page_data_0_* documents) or the font table (glyphs.json).
inductive JDoc where
  | pages (ps : List Page)
  | fonts (fs : List FontRec)
  deriving DecidableEq

inductive CanvasOp where
  | bookmark (pos : Nat)
  | draw (matrix : Transform6) (elems : List GlyphPlace)
  | drawImage (x y w h : ℚ) (ref : List Char)
  | link (dest : Nat) (x1 y1 x2 y2 : ℚ)
  | showPage
  | setTitle
  | save
  deriving DecidableEq

def alistFind {α : Type} : List (List Char × α) → List Char → Option α
  | [], _ => none
  | (k, v) :: rest, key => if k = key then some v else alistFind rest key

def glyphsJsonName : List Char := String.toList "glyphs.json"

def pageDataName : List Char := String.toList "page_data_0_"

def runName : List Char := String.toList "run"

def imageName : List Char := String.toList "image"

-- font = []; for _ in jsons["glyphs.json"]: if _["fontKey"] == ...: font = _; break
def findFont : List FontRec → List Char → Option FontRec
  | [], _ => none
  | f :: rest, key => if f.fontKey = key then some f else findFont rest key

def lookupGlyph : List (Nat × GlyphRec) → Nat → Option GlyphRec
  | [], _ => none
  | (k, g) :: rest, key => if k = key then some g else lookupGlyph rest key

-- transform = [_ * 72 / self.dpi for _ in child["transform"]]
def scaleTransform (dpi : ℚ) (t : Transform6) : Transform6 :=
  ⟨t.a * 72 / dpi, t.b * 72 / dpi, t.c * 72 / dpi, t.d * 72 / dpi,
   t.e * 72 / dpi, t.f * 72 / dpi⟩

def childWidth (dpi : ℚ) (c : Child) : ℚ :=
  c.rectRight * (scaleTransform dpi c.transform).a

def childHeight (dpi : ℚ) (c : Child) : ℚ :=
  c.rectBottom * (scaleTransform dpi c.transform).d

def childX (dpi : ℚ) (c : Child) : ℚ := (scaleTransform dpi c.transform).e

def childY (dpi pageH : ℚ) (c : Child) : ℚ :=
  pageH - (scaleTransform dpi c.transform).f - childHeight dpi c

-- The glyph loop of a run child.  A missing font record reproduces the
-- TypeError of indexing the initial empty list font = [] with a string;
-- a glyph id absent from the font glyph dictionary reproduces the
-- KeyError; a glyph whose record has an empty or missing path is skipped
-- with continue; otherwise the composed g element records the horizontal
-- offset xPosition[i], the fontSize / unitsPerEm scale and the path with
-- relative move runs stripped.
def collectGlyphElems (fontOpt : Option FontRec) (fontSize : ℚ)
    (color : List Char) (xPos : List ℚ) : Nat → List Nat →
      Except String (List GlyphPlace)
  | _, [] => Except.ok []
  | i, g :: gs =>
    match fontOpt with
    | none => Except.error "TypeError: list indices must be integers"
    | some font =>
      match lookupGlyph font.glyphs g with
      | none => Except.error "KeyError: glyph"
      | some grec =>
        if grec.path.getD [] = [] then
          collectGlyphElems fontOpt fontSize color xPos (i + 1) gs
        else
          match xPos.get? i with
          | none => Except.error "IndexError: xPosition"
          | some x =>
            match collectGlyphElems fontOpt fontSize color xPos (i + 1) gs with
            | Except.ok rest =>
                Except.ok (⟨x, fontSize / font.unitsPerEm,
                  stripMoves (grec.path.getD []), color⟩ :: rest)
            | Except.error e => Except.error e

-- if "link" in child and child["link"]["linkPositionId"] < book_end_pos:
-- emit the annotation over Rect=(x, y, x + width, y + height).
def linkOpsFor (dpi pageH : ℚ) (bookEnd : Nat) (child : Child) :
    List CanvasOp :=
  match child.link with
  | some dest =>
      if dest < bookEnd then
        [CanvasOp.link dest (childX dpi child) (childY dpi pageH child)
          (childX dpi child + childWidth dpi child)
          (childY dpi pageH child + childHeight dpi child)]
      else []
  | none => []

-- The run or image drawing branch of the child dispatch (a child of any
-- other type draws nothing).
def childBodyOps (dpi pageH : ℚ) (jsons : List (List Char × JDoc))
    (images : List (List Char × List Nat)) (child : Child) :
    Except String (List CanvasOp) :=
  if child.type = runName then
    match alistFind jsons glyphsJsonName with
    | some (JDoc.fonts fs) =>
        match collectGlyphElems (findFont fs child.fontKey) child.fontSize
            child.textColor child.xPosition 0 child.glyphs with
        | Except.ok elems =>
            Except.ok [CanvasOp.draw (scaleTransform dpi child.transform)
              elems]
        | Except.error e => Except.error e
    | some (JDoc.pages _) => Except.error "TypeError: glyphs.json"
    | none => Except.error "KeyError: glyphs.json"
  else if child.type = imageName then
    match alistFind images child.imageReference with
    | some _ =>
        Except.ok [CanvasOp.drawImage (childX dpi child)
          (childY dpi pageH child) (childWidth dpi child)
          (childHeight dpi child) child.imageReference]
    | none => Except.error "KeyError: imageReference"
  else Except.ok []

-- Drawing and link emission for one child: the run or image branch
-- followed by the unconditional link check with its strict bound.
def childDrawOps (dpi pageH : ℚ) (bookEnd : Nat)
    (jsons : List (List Char × JDoc)) (images : List (List Char × List Nat))
    (child : Child) : Except String (List CanvasOp) :=
  match childBodyOps dpi pageH jsons images child with
  | Except.error e => Except.error e
  | Except.ok dops => Except.ok (dops ++ linkOpsFor dpi pageH bookEnd child)

-- for start_pos in range(start_pos, bound): pdf_canvas.bookmarkPage(start_pos)
def bookmarkOps (c bound : Nat) : List CanvasOp :=
  (List.range' c (bound - c)).map CanvasOp.bookmark

-- In Python the loop over range(c, bound) leaves the loop variable at
-- bound - 1 when it runs and at c otherwise; the subsequent
-- start_pos = max(start_pos, bound) therefore yields max(c, bound).
def cursorAfterRange (c bound : Nat) : Nat :=
  max (if c < bound then bound - 1 else c) bound

-- The bookmark loop and cursor update performed before a child with a
-- declared startPositionId is drawn.
def startBookmarkOps (cursor : Nat) (child : Child) : List CanvasOp :=
  match child.startPositionId with
  | some b => bookmarkOps cursor (b + 1)
  | none => []

def nextCursor (cursor : Nat) (child : Child) : Nat :=
  match child.startPositionId with
  | some b => cursorAfterRange cursor (b + 1)
  | none => cursor

def processChild (dpi pageH : ℚ) (bookEnd : Nat)
    (jsons : List (List Char × JDoc)) (images : List (List Char × List Nat))
    (cursor : Nat) (child : Child) : List CanvasOp × Except String Nat :=
  match childDrawOps dpi pageH bookEnd jsons images child with
  | Except.error e => (startBookmarkOps cursor child, Except.error e)
  | Except.ok dops =>
      (startBookmarkOps cursor child ++ dops, Except.ok (nextCursor cursor child))

def processChildren (dpi pageH : ℚ) (bookEnd : Nat)
    (jsons : List (List Char × JDoc)) (images : List (List Char × List Nat))
    (cursor : Nat) : List Child → List CanvasOp × Except String Nat
  | [] => ([], Except.ok cursor)
  | c :: cs =>
    match processChild dpi pageH bookEnd jsons images cursor c with
    | (ops, Except.error e) => (ops, Except.error e)
    | (ops, Except.ok cur2) =>
        match processChildren dpi pageH bookEnd jsons images cur2 cs with
        | (ops2, r) => (ops ++ ops2, r)

-- end_pos = page["endPositionId"] + 1; trailing bookmark loop; showPage.
def processPage (dpi pageH : ℚ) (bookEnd : Nat)
    (jsons : List (List Char × JDoc)) (images : List (List Char × List Nat))
    (cursor : Nat) (page : Page) : List CanvasOp × Except String Nat :=
  match processChildren dpi pageH bookEnd jsons images cursor page.children with
  | (ops, Except.error e) => (ops, Except.error e)
  | (ops, Except.ok cur2) =>
      let endPos := page.endPositionId + 1
      (ops ++ bookmarkOps cur2 endPos ++ [CanvasOp.showPage],
        Except.ok (cursorAfterRange cur2 endPos))

def processPages (dpi pageH : ℚ) (bookEnd : Nat)
    (jsons : List (List Char × JDoc)) (images : List (List Char × List Nat))
    (cursor : Nat) : List Page → List CanvasOp × Except String Nat
  | [] => ([], Except.ok cursor)
  | p :: ps =>
    match processPage dpi pageH bookEnd jsons images cursor p with
    | (ops, Except.error e) => (ops, Except.error e)
    | (ops, Except.ok cur2) =>
        match processPages dpi pageH bookEnd jsons images cur2 ps with
        | (ops2, r) => (ops ++ ops2, r)

-- pages = []; for _ in jsons: if _.startswith("page_data_0_"):
-- pages = jsons[_]; break.  A matching document that is not a page list
-- would make the page loop fail on the first element in Python; the
-- embedding reports that as an error at selection time.
def findPages : List (List Char × JDoc) → Except String (List Page)
  | [] => Except.ok []
  | (name, doc) :: rest =>
      if pageDataName.isPrefixOf name then
        match doc with
        | JDoc.pages ps => Except.ok ps
        | JDoc.fonts _ => Except.error "TypeError: page data"
      else findPages rest

def renderPdf (dpi pageH : ℚ) (bookEnd : Nat)
    (jsons : List (List Char × JDoc)) (images : List (List Char × List Nat))
    (startPos : Nat) : List CanvasOp × Except String Nat :=
  match findPages jsons with
  | Except.error e => ([], Except.error e)
  | Except.ok pages => processPages dpi pageH bookEnd jsons images startPos pages

-- ## Pagination driver (Kindle2PDF.render_book).  The HTTP fetch and tar
-- unpacking of render_book_pages are external collaborators: fetch maps a
-- starting position to the parsed batch.  Fuel bounds the while loop;
-- running out of fuel is reported as an error and never reaches the save.

structure RawBatch where
  jsons : List (List Char × JDoc)
  rawImages : List (List Char × List Nat)

def renderBookLoop (E kdf : List Nat → List Nat → List Nat)
    (fetch : Nat → RawBatch) (auth : Auth) (dpi pageH : ℚ) (endPos : Nat) :
    Nat → Nat → List CanvasOp × Except String (Option Nat)
  | 0, _ => ([], Except.error "out of fuel")
  | fuel + 1, cursor =>
    if cursor ≤ endPos then
      match decryptImages E kdf auth (fetch cursor).rawImages with
      | Except.error e => ([], Except.error e)
      | Except.ok images =>
        if (fetch cursor).jsons = [] then ([], Except.ok none)
        else
          match renderPdf dpi pageH endPos (fetch cursor).jsons images
              cursor with
          | (ops, Except.error e) => (ops, Except.error e)
          | (ops, Except.ok cur2) =>
              match renderBookLoop E kdf fetch auth dpi pageH endPos fuel
                  cur2 with
              | (ops2, r) => (ops ++ ops2, r)
    else ([CanvasOp.save], Except.ok (some cursor))

def renderBook (E kdf : List Nat → List Nat → List Nat)
    (fetch : Nat → RawBatch) (auth : Auth) (dpi pageH : ℚ) (endPos : Nat)
    (fuel startPos : Nat) : List CanvasOp × Except String (Option Nat) :=
  match renderBookLoop E kdf fetch auth dpi pageH endPos fuel startPos with
  | (ops, r) => (CanvasOp.setTitle :: ops, r)

-- ## Session renewal check of render_book_pages:
-- if self.refresh == True or time() > self.session["auth"]["expiresAt"] / 1000 - 5:
-- with time() in seconds and expiresAt in epoch milliseconds.
def sessionNeedsRenewal (refresh : Bool) (now expiresAtMs : ℚ) : Bool :=
  refresh || decide (expiresAtMs / 1000 - 5 < now)

/-- C4 counterexample: with an expiresAt lying 4999 ms before the current
time the claim predicts that no renewal occurs, but the code does renew
(the current time is far past expiry minus the 5-second margin). -/
theorem c4_counterexample :
    sessionNeedsRenewal false 1000000 (1000000 * 1000 - 4999) = true := by
  simp only [sessionNeedsRenewal, Bool.false_or]
  rw [decide_eq_true_eq]
  norm_num

/-- C4 amended: before each batch fetch the session is renewed exactly
when forced-refresh mode is set or the current time is past the expiry
minus the 5-second safety margin.  An expiresAt 5001 ms before the
current time triggers a renewal, but so does one 4999 ms before the
current time; no renewal occurs only when the expiry is more than 5000 ms
in the future, for instance 5001 ms after the current time. -/
theorem c4_amended_renewal_condition :
    (∀ (refresh : Bool) (now expiresAtMs : ℚ),
        sessionNeedsRenewal refresh now expiresAtMs = true ↔
          (refresh = true ∨ expiresAtMs / 1000 - 5 < now)) ∧
    (∀ now : ℚ, sessionNeedsRenewal false now (now * 1000 - 5001) = true) ∧
    (∀ now : ℚ, sessionNeedsRenewal false now (now * 1000 - 4999) = true) ∧
    (∀ now : ℚ, sessionNeedsRenewal false now (now * 1000 + 5001) = false) := by
  refine ⟨?_, ?_, ?_, ?_⟩
  · intro refresh now e
    simp [sessionNeedsRenewal]
  · intro now
    simp only [sessionNeedsRenewal, Bool.false_or, decide_eq_true_eq]
    linarith
  · intro now
    simp only [sessionNeedsRenewal, Bool.false_or, decide_eq_true_eq]
    linarith
  · intro now
    simp only [sessionNeedsRenewal, Bool.false_or]
    rw [decide_eq_false_iff_not]
    intro hlt
    linarith

/-- C10: a batch whose JSON documents include none named with the
page_data_0_ first-match pattern makes render_pdf perform no canvas
operation at all and return the input start position unchanged, so the
pagination driver does not advance on such a batch. -/
theorem c10_no_page_data_noop (dpi pageH : ℚ) (bookEnd : Nat)
    (jsons : List (List Char × JDoc)) (images : List (List Char × List Nat))
    (startPos : Nat)
    (h : ∀ name doc, (name, doc) ∈ jsons →
      pageDataName.isPrefixOf name = false) :
    renderPdf dpi pageH bookEnd jsons images startPos
      = ([], Except.ok startPos) := by
  have hfind : findPages jsons = Except.ok [] := by
    induction jsons with
    | nil => rfl
    | cons kv rest ih =>
        obtain ⟨name, doc⟩ := kv
        have hn := h name doc (by simp)
        simp only [findPages, hn, Bool.false_eq_true, if_false]
        exact ih fun n d hmem => h n d (by simp [hmem])
  simp [renderPdf, hfind, processPages]

-- ## Bookmark coverage (claim C1).

def bookmarkTrace (ops : List CanvasOp) : List Nat :=
  ops.filterMap fun op =>
    match op with
    | CanvasOp.bookmark n => some n
    | _ => none

def linkTrace (ops : List CanvasOp) : List (Nat × ℚ × ℚ × ℚ × ℚ) :=
  ops.filterMap fun op =>
    match op with
    | CanvasOp.link dest x1 y1 x2 y2 => some (dest, x1, y1, x2, y2)
    | _ => none

theorem bookmarkTrace_append (a b : List CanvasOp) :
    bookmarkTrace (a ++ b) = bookmarkTrace a ++ bookmarkTrace b :=
  List.filterMap_append a b _

theorem linkTrace_append (a b : List CanvasOp) :
    linkTrace (a ++ b) = linkTrace a ++ linkTrace b :=
  List.filterMap_append a b _

theorem cursorAfterRange_eq_max (c b : Nat) :
    cursorAfterRange c b = max c b := by
  unfold cursorAfterRange
  split <;> omega

theorem bookmarkTrace_bookmarkOps (c b : Nat) :
    bookmarkTrace (bookmarkOps c b) = List.range' c (b - c) := by
  unfold bookmarkTrace bookmarkOps
  rw [List.filterMap_map]
  have hcomp : ((fun op =>
      match op with
      | CanvasOp.bookmark n => some n
      | _ => none) ∘ CanvasOp.bookmark) = some := rfl
  rw [hcomp, List.filterMap_some]

theorem linkTrace_bookmarkOps (c b : Nat) :
    linkTrace (bookmarkOps c b) = [] := by
  unfold linkTrace bookmarkOps
  rw [List.filterMap_map]
  have hcomp : ((fun op =>
      match op with
      | CanvasOp.link dest x1 y1 x2 y2 => some (dest, x1, y1, x2, y2)
      | _ => none) ∘ CanvasOp.bookmark)
        = fun _ => (none : Option (Nat × ℚ × ℚ × ℚ × ℚ)) := rfl
  rw [hcomp]
  exact List.filterMap_eq_nil.mpr fun a _ => rfl

theorem range'_glue (a b c : Nat) (h1 : a ≤ b) (h2 : b ≤ c) :
    List.range' a (b - a) ++ List.range' b (c - b) = List.range' a (c - a) := by
  have hx := List.range'_append a (b - a) (c - b) 1
  rw [show a + 1 * (b - a) = b from by omega,
    show (c - b) + (b - a) = c - a from by omega] at hx
  simpa using hx

-- Shape of a successful childDrawOps result: drawing operations followed
-- by the link operations, with no bookmark among the drawing operations.
theorem childBodyOps_ok_shape (dpi pageH : ℚ)
    (jsons : List (List Char × JDoc)) (images : List (List Char × List Nat))
    (child : Child) (dops0 : List CanvasOp)
    (heq : childBodyOps dpi pageH jsons images child = Except.ok dops0) :
    ∀ op ∈ dops0, (∃ m e, op = CanvasOp.draw m e) ∨
      ∃ x y w hh r, op = CanvasOp.drawImage x y w hh r := by
  intro op hop
  unfold childBodyOps at heq
  split at heq
  · split at heq
    · split at heq
      · simp only [Except.ok.injEq] at heq
        subst heq
        simp only [List.mem_singleton] at hop
        exact Or.inl ⟨_, _, hop⟩
      · exact absurd heq (by simp)
    · exact absurd heq (by simp)
    · exact absurd heq (by simp)
  · split at heq
    · split at heq
      · simp only [Except.ok.injEq] at heq
        subst heq
        simp only [List.mem_singleton] at hop
        exact Or.inr ⟨_, _, _, _, _, hop⟩
      · exact absurd heq (by simp)
    · simp only [Except.ok.injEq] at heq
      subst heq
      simp at hop

theorem childDrawOps_ok_shape (dpi pageH : ℚ) (bookEnd : Nat)
    (jsons : List (List Char × JDoc)) (images : List (List Char × List Nat))
    (child : Child) (dops : List CanvasOp)
    (h : childDrawOps dpi pageH bookEnd jsons images child
      = Except.ok dops) :
    ∃ dops0, dops = dops0 ++ linkOpsFor dpi pageH bookEnd child ∧
      (∀ op ∈ dops0, (∃ m e, op = CanvasOp.draw m e) ∨
        ∃ x y w hh r, op = CanvasOp.drawImage x y w hh r) := by
  unfold childDrawOps at h
  cases hbody : childBodyOps dpi pageH jsons images child with
  | error e =>
      rw [hbody] at h
      exact absurd h (by simp)
  | ok dops0 =>
      rw [hbody] at h
      simp only [Except.ok.injEq] at h
      subst h
      exact ⟨dops0, rfl,
        childBodyOps_ok_shape dpi pageH jsons images child dops0 hbody⟩

theorem bookmarkTrace_of_shape (l : List CanvasOp)
    (h : ∀ op ∈ l, (∃ m e, op = CanvasOp.draw m e) ∨
      ∃ x y w hh r, op = CanvasOp.drawImage x y w hh r) :
    bookmarkTrace l = [] := by
  unfold bookmarkTrace
  rw [List.filterMap_eq_nil]
  intro op hop
  rcases h op hop with ⟨m, e, rfl⟩ | ⟨x, y, w, hh, r, rfl⟩ <;> rfl

theorem linkTrace_of_shape (l : List CanvasOp)
    (h : ∀ op ∈ l, (∃ m e, op = CanvasOp.draw m e) ∨
      ∃ x y w hh r, op = CanvasOp.drawImage x y w hh r) :
    linkTrace l = [] := by
  unfold linkTrace
  rw [List.filterMap_eq_nil]
  intro op hop
  rcases h op hop with ⟨m, e, rfl⟩ | ⟨x, y, w, hh, r, rfl⟩ <;> rfl

theorem bookmarkTrace_linkOpsFor (dpi pageH : ℚ) (bookEnd : Nat)
    (child : Child) : bookmarkTrace (linkOpsFor dpi pageH bookEnd child) = [] := by
  unfold linkOpsFor
  rcases child.link with _ | dest
  · rfl
  · dsimp only
    split <;> rfl

theorem bookmarkTrace_startBookmarkOps (cursor : Nat) (child : Child) :
    bookmarkTrace (startBookmarkOps cursor child)
      = List.range' cursor (nextCursor cursor child - cursor) := by
  unfold startBookmarkOps nextCursor
  rcases child.startPositionId with _ | b
  · simp [bookmarkTrace]
  · dsimp only
    rw [bookmarkTrace_bookmarkOps, cursorAfterRange_eq_max]
    congr 1
    omega

theorem nextCursor_le (cursor : Nat) (child : Child) :
    cursor ≤ nextCursor cursor child := by
  unfold nextCursor
  rcases child.startPositionId with _ | b
  · simp
  · dsimp only
    rw [cursorAfterRange_eq_max]
    omega

theorem processChild_trace (dpi pageH : ℚ) (bookEnd : Nat)
    (jsons : List (List Char × JDoc)) (images : List (List Char × List Nat))
    (cursor : Nat) (child : Child) :
    bookmarkTrace (processChild dpi pageH bookEnd jsons images cursor child).1
        = List.range' cursor (nextCursor cursor child - cursor) ∧
      ∀ c2, (processChild dpi pageH bookEnd jsons images cursor child).2
          = Except.ok c2 → c2 = nextCursor cursor child := by
  unfold processChild
  cases hbody : childDrawOps dpi pageH bookEnd jsons images child with
  | error e =>
      refine ⟨bookmarkTrace_startBookmarkOps cursor child, ?_⟩
      intro c2 hc2
      simp at hc2
  | ok dops =>
      obtain ⟨dops0, rfl, hshape⟩ :=
        childDrawOps_ok_shape dpi pageH bookEnd jsons images child dops hbody
      constructor
      · rw [bookmarkTrace_append, bookmarkTrace_append,
          bookmarkTrace_of_shape dops0 hshape,
          bookmarkTrace_linkOpsFor, bookmarkTrace_startBookmarkOps]
        simp
      · intro c2 hc2
        simp only [Except.ok.injEq] at hc2
        exact hc2.symm

theorem processChildren_ok_trace (dpi pageH : ℚ) (bookEnd : Nat)
    (jsons : List (List Char × JDoc)) (images : List (List Char × List Nat)) :
    ∀ (cs : List Child) (cursor : Nat) (ops : List CanvasOp) (final : Nat),
      processChildren dpi pageH bookEnd jsons images cursor cs
          = (ops, Except.ok final) →
      bookmarkTrace ops = List.range' cursor (final - cursor) ∧
        cursor ≤ final := by
  intro cs
  induction cs with
  | nil =>
      intro cursor ops final h
      simp only [processChildren, Prod.mk.injEq, Except.ok.injEq] at h
      rw [← h.1, ← h.2]
      simp [bookmarkTrace]
  | cons c cs ih =>
      intro cursor ops final h
      simp only [processChildren] at h
      cases hc : processChild dpi pageH bookEnd jsons images cursor c with
      | mk ops1 r1 =>
          rw [hc] at h
          obtain ⟨htr, hok⟩ :=
            processChild_trace dpi pageH bookEnd jsons images cursor c
          rw [hc] at htr hok
          cases r1 with
          | error e => simp at h
          | ok cur2 =>
              have hcur2 : cur2 = nextCursor cursor c := hok cur2 rfl
              dsimp only at h
              cases hrec : processChildren dpi pageH bookEnd jsons images
                  cur2 cs with
              | mk ops2 r2 =>
                  rw [hrec] at h
                  simp only [Prod.mk.injEq] at h
                  obtain ⟨hops, hr⟩ := h
                  cases r2 with
                  | error e => simp at hr
                  | ok f2 =>
                      simp only [Except.ok.injEq] at hr
                      subst hr
                      obtain ⟨htr2, hle2⟩ := ih cur2 ops2 f2 hrec
                      have hle1 : cursor ≤ cur2 := by
                        rw [hcur2]
                        exact nextCursor_le cursor c
                      rw [← hcur2] at htr
                      subst hops
                      constructor
                      · rw [bookmarkTrace_append, htr, htr2]
                        exact range'_glue cursor cur2 f2 hle1 hle2
                      · omega

theorem processPage_ok_trace (dpi pageH : ℚ) (bookEnd : Nat)
    (jsons : List (List Char × JDoc)) (images : List (List Char × List Nat))
    (page : Page) (cursor : Nat) (ops : List CanvasOp) (final : Nat)
    (h : processPage dpi pageH bookEnd jsons images cursor page
      = (ops, Except.ok final)) :
    bookmarkTrace ops = List.range' cursor (final - cursor) ∧
      cursor ≤ final := by
  unfold processPage at h
  cases hch : processChildren dpi pageH bookEnd jsons images cursor
      page.children with
  | mk ops1 r1 =>
      rw [hch] at h
      cases r1 with
      | error e => simp at h
      | ok cur2 =>
          dsimp only at h
          simp only [Prod.mk.injEq] at h
          obtain ⟨hops, hr⟩ := h
          simp only [Except.ok.injEq] at hr
          obtain ⟨htr1, hle1⟩ := processChildren_ok_trace dpi pageH bookEnd
            jsons images page.children cursor ops1 cur2 hch
          subst hops
          rw [← hr, cursorAfterRange_eq_max]
          constructor
          · rw [bookmarkTrace_append, bookmarkTrace_append, htr1,
              bookmarkTrace_bookmarkOps]
            have hsp : bookmarkTrace [CanvasOp.showPage] = [] := rfl
            rw [hsp, List.append_nil]
            have hcnt : (page.endPositionId + 1) - cur2
                = max cur2 (page.endPositionId + 1) - cur2 := by omega
            rw [hcnt]
            exact range'_glue cursor cur2 (max cur2 (page.endPositionId + 1))
              hle1 (Nat.le_max_left _ _)
          · omega

theorem processPages_ok_trace (dpi pageH : ℚ) (bookEnd : Nat)
    (jsons : List (List Char × JDoc)) (images : List (List Char × List Nat)) :
    ∀ (ps : List Page) (cursor : Nat) (ops : List CanvasOp) (final : Nat),
      processPages dpi pageH bookEnd jsons images cursor ps
          = (ops, Except.ok final) →
      bookmarkTrace ops = List.range' cursor (final - cursor) ∧
        cursor ≤ final := by
  intro ps
  induction ps with
  | nil =>
      intro cursor ops final h
      simp only [processPages, Prod.mk.injEq, Except.ok.injEq] at h
      rw [← h.1, ← h.2]
      simp [bookmarkTrace]
  | cons p ps ih =>
      intro cursor ops final h
      simp only [processPages] at h
      cases hp : processPage dpi pageH bookEnd jsons images cursor p with
      | mk ops1 r1 =>
          rw [hp] at h
          cases r1 with
          | error e => simp at h
          | ok cur2 =>
              dsimp only at h
              cases hrec : processPages dpi pageH bookEnd jsons images
                  cur2 ps with
              | mk ops2 r2 =>
                  rw [hrec] at h
                  simp only [Prod.mk.injEq] at h
                  obtain ⟨hops, hr⟩ := h
                  cases r2 with
                  | error e => simp at hr
                  | ok f2 =>
                      simp only [Except.ok.injEq] at hr
                      subst hr
                      obtain ⟨htr1, hle1⟩ := processPage_ok_trace dpi pageH
                        bookEnd jsons images p cursor ops1 cur2 hp
                      obtain ⟨htr2, hle2⟩ := ih cur2 ops2 f2 hrec
                      subst hops
                      constructor
                      · rw [bookmarkTrace_append, htr1, htr2]
                        exact range'_glue cursor cur2 f2 hle1 hle2
                      · omega

/-- C1: for every sequence of pages processed by the page compositor,
with arbitrary startPositionId and endPositionId values including
out-of-order or repeated boundaries, the bookmark operations emitted by a
completed render_pdf call are exactly the integer positions of
[initial cursor, returned cursor), each passed to bookmarkPage exactly
once, in strictly increasing order, with no gaps and no duplicates; the
cursor never decreases, and each boundary observation advances it to
max(cursor, boundary + 1), one past the larger of its current coverage
and the observed boundary. -/
theorem c1_bookmark_coverage (dpi pageH : ℚ) (bookEnd : Nat)
    (jsons : List (List Char × JDoc)) (images : List (List Char × List Nat))
    (startPos finalPos : Nat)
    (h : (renderPdf dpi pageH bookEnd jsons images startPos).2
      = Except.ok finalPos) :
    bookmarkTrace (renderPdf dpi pageH bookEnd jsons images startPos).1
        = List.range' startPos (finalPos - startPos) ∧
      startPos ≤ finalPos ∧
      ∀ c b, cursorAfterRange c (b + 1) = max c (b + 1) := by
  unfold renderPdf at h ⊢
  split at h
  · simp at h
  · rename_i pages heq
    cases hpp : processPages dpi pageH bookEnd jsons images startPos
        pages with
    | mk ops r =>
        rw [hpp] at h
        dsimp only at h
        subst h
        dsimp only
        obtain ⟨h1, h2⟩ := processPages_ok_trace dpi pageH bookEnd jsons
          images pages startPos ops finalPos hpp
        exact ⟨h1, h2, fun c b => cursorAfterRange_eq_max c (b + 1)⟩

/-- Closed witness for C1 on a one-page batch with an out-of-order start
boundary. -/
theorem c1_bookmark_coverage_witness :
    bookmarkTrace (renderPdf 160 842 100
        [(pageDataName, JDoc.pages [⟨[⟨some 2, [Char.ofNat 120],
          ⟨1, 0, 0, 1, 0, 0⟩, 1, 1, [], [], [], 1, [], [], none⟩], 4⟩])]
        [] 0).1
        = List.range' 0 5 ∧
      0 ≤ 5 ∧ ∀ c b, cursorAfterRange c (b + 1) = max c (b + 1) :=
  c1_bookmark_coverage 160 842 100
    [(pageDataName, JDoc.pages [⟨[⟨some 2, [Char.ofNat 120],
      ⟨1, 0, 0, 1, 0, 0⟩, 1, 1, [], [], [], 1, [], [], none⟩], 4⟩])]
    [] 0 5 (by rfl)

-- ## Link annotations (claim C8) and lookup failures (claim C6).

theorem linkTrace_startBookmarkOps (cursor : Nat) (child : Child) :
    linkTrace (startBookmarkOps cursor child) = [] := by
  unfold startBookmarkOps
  rcases child.startPositionId with _ | b
  · rfl
  · dsimp only
    exact linkTrace_bookmarkOps cursor (b + 1)

theorem linkTrace_linkOpsFor (dpi pageH : ℚ) (bookEnd : Nat) (child : Child) :
    linkTrace (linkOpsFor dpi pageH bookEnd child)
      = match child.link with
        | some dest =>
            if dest < bookEnd then
              [(dest, childX dpi child, childY dpi pageH child,
                childX dpi child + childWidth dpi child,
                childY dpi pageH child + childHeight dpi child)]
            else []
        | none => [] := by
  unfold linkOpsFor
  rcases child.link with _ | dest
  · rfl
  · dsimp only
    split <;> rfl

/-- C8: for every child whose processing completes, a link annotation over
the rectangle (x, y, x + width, y + height) targeting the link
destination is emitted if and only if the child carries a link whose
destination is strictly less than the book end position; a child whose
destination equals the end position, or which carries no link, yields no
annotation and no error. -/
theorem c8_link_annotation (dpi pageH : ℚ) (bookEnd : Nat)
    (jsons : List (List Char × JDoc)) (images : List (List Char × List Nat))
    (cursor c2 : Nat) (child : Child)
    (h : (processChild dpi pageH bookEnd jsons images cursor child).2
      = Except.ok c2) :
    linkTrace (processChild dpi pageH bookEnd jsons images cursor child).1
      = match child.link with
        | some dest =>
            if dest < bookEnd then
              [(dest, childX dpi child, childY dpi pageH child,
                childX dpi child + childWidth dpi child,
                childY dpi pageH child + childHeight dpi child)]
            else []
        | none => [] := by
  unfold processChild at h ⊢
  cases hbody : childDrawOps dpi pageH bookEnd jsons images child with
  | error e =>
      rw [hbody] at h
      simp at h
  | ok dops =>
      dsimp only
      obtain ⟨dops0, rfl, hshape⟩ :=
        childDrawOps_ok_shape dpi pageH bookEnd jsons images child dops hbody
      rw [← List.append_assoc, linkTrace_append, linkTrace_append,
        linkTrace_startBookmarkOps, linkTrace_of_shape dops0 hshape,
        linkTrace_linkOpsFor]
      simp

/-- Closed witness for C8 on a child carrying a link with an in-range
destination. -/
theorem c8_link_annotation_witness :
    linkTrace (processChild 160 842 100 [] []
        7 ⟨none, [Char.ofNat 120], ⟨1, 0, 0, 1, 0, 0⟩, 1, 1, [], [], [], 1,
          [], [], some 42⟩).1
      = [(42, childX 160 ⟨none, [Char.ofNat 120], ⟨1, 0, 0, 1, 0, 0⟩, 1, 1,
            [], [], [], 1, [], [], some 42⟩,
          childY 160 842 ⟨none, [Char.ofNat 120], ⟨1, 0, 0, 1, 0, 0⟩, 1, 1,
            [], [], [], 1, [], [], some 42⟩,
          childX 160 ⟨none, [Char.ofNat 120], ⟨1, 0, 0, 1, 0, 0⟩, 1, 1, [],
            [], [], 1, [], [], some 42⟩ +
            childWidth 160 ⟨none, [Char.ofNat 120], ⟨1, 0, 0, 1, 0, 0⟩, 1, 1,
              [], [], [], 1, [], [], some 42⟩,
          childY 160 842 ⟨none, [Char.ofNat 120], ⟨1, 0, 0, 1, 0, 0⟩, 1, 1,
            [], [], [], 1, [], [], some 42⟩ +
            childHeight 160 ⟨none, [Char.ofNat 120], ⟨1, 0, 0, 1, 0, 0⟩, 1, 1,
              [], [], [], 1, [], [], some 42⟩)] :=
  c8_link_annotation 160 842 100 [] [] 7 7
    ⟨none, [Char.ofNat 120], ⟨1, 0, 0, 1, 0, 0⟩, 1, 1, [], [], [], 1, [],
      [], some 42⟩ (by rfl)

-- Concrete batch for the C6 counterexample: a run child whose font key
-- has no record in the font table, followed by a second child that would
-- bookmark position 3, on a page that would finalize at position 10.
def c6RunChild : Child :=
  ⟨none, runName, ⟨1, 0, 0, 1, 0, 0⟩, 1, 1, String.toList "F", [7], [0], 1,
    [], [], none⟩

def c6OtherChild : Child :=
  ⟨some 3, [Char.ofNat 120], ⟨1, 0, 0, 1, 0, 0⟩, 1, 1, [], [], [], 1, [],
    [], none⟩

def c6Jsons : List (List Char × JDoc) :=
  [(pageDataName, JDoc.pages [⟨[c6RunChild, c6OtherChild], 9⟩]),
   (glyphsJsonName, JDoc.fonts [])]

/-- C6 counterexample: a run child whose font key has no record in the
font table is not skipped with a recorded warning; the whole render_pdf
call aborts with the uncaught font lookup failure before the remaining
child of the page is processed (no bookmark for it, no page
finalization). -/
theorem c6_counterexample :
    renderPdf 160 842 100 c6Jsons [] 0
      = ([], Except.error "TypeError: list indices must be integers") := by
  rfl

-- The glyph loop aborts with an error whenever some glyph id of the run
-- is missing from the font record: either that lookup itself raises, or
-- an earlier glyph already raised.
theorem collectGlyphElems_missing_glyph (font : FontRec) (fontSize : ℚ)
    (color : List Char) (xPos : List ℚ) :
    ∀ (gs : List Nat) (i : Nat),
      (∃ g ∈ gs, lookupGlyph font.glyphs g = none) →
      ∃ e, collectGlyphElems (some font) fontSize color xPos i gs
        = Except.error e := by
  intro gs
  induction gs with
  | nil =>
      intro i h
      obtain ⟨g, hg, _⟩ := h
      simp at hg
  | cons g0 rest ih =>
      intro i h
      obtain ⟨g, hgmem, hgl⟩ := h
      have hstep : collectGlyphElems (some font) fontSize color xPos i
          (g0 :: rest)
          = match lookupGlyph font.glyphs g0 with
            | none => Except.error "KeyError: glyph"
            | some grec2 =>
              if grec2.path.getD [] = [] then
                collectGlyphElems (some font) fontSize color xPos (i + 1)
                  rest
              else
                match xPos.get? i with
                | none => Except.error "IndexError: xPosition"
                | some x =>
                  match collectGlyphElems (some font) fontSize color xPos
                      (i + 1) rest with
                  | Except.ok rest2 =>
                      Except.ok (⟨x, fontSize / font.unitsPerEm,
                        stripMoves (grec2.path.getD []), color⟩ :: rest2)
                  | Except.error e => Except.error e := rfl
      rw [hstep]
      cases hg0 : lookupGlyph font.glyphs g0 with
      | none => exact ⟨"KeyError: glyph", rfl⟩
      | some grec2 =>
          dsimp only
          have hrest : ∃ g2 ∈ rest, lookupGlyph font.glyphs g2 = none := by
            rcases List.mem_cons.mp hgmem with heq | hmem
            · subst heq
              rw [hg0] at hgl
              cases hgl
            · exact ⟨g, hmem, hgl⟩
          obtain ⟨e, he⟩ := ih (i + 1) hrest
          by_cases hpath : grec2.path.getD [] = []
          · rw [if_pos hpath, he]
            exact ⟨e, rfl⟩
          · rw [if_neg hpath]
            cases hx : xPos.get? i with
            | none => exact ⟨"IndexError: xPosition", rfl⟩
            | some x =>
                dsimp only
                rw [he]
                exact ⟨e, rfl⟩

/-- C6 amended: during page composition, a run child whose font key has
no matching record in the font table (and which has at least one glyph)
raises an uncaught TypeError, and a run child whose glyph id is missing
from its font record raises an uncaught KeyError (or, when an earlier
glyph of the run already fails, that earlier uncaught error): each aborts
processing - there is no warning and no skip-and-continue; only a glyph
whose path entry is empty or missing is tolerated: it is skipped
silently, contributes no visible mark and raises no error. -/
theorem c6_amended_lookup_failures (dpi pageH : ℚ) (bookEnd : Nat)
    (jsons : List (List Char × JDoc)) (images : List (List Char × List Nat))
    (cursor : Nat) (child : Child) (fs : List FontRec) (font : FontRec)
    (fontSize : ℚ) (color : List Char) (xPos : List ℚ) (i g : Nat)
    (gs : List Nat) (grec : GlyphRec) :
    (child.type = runName →
      alistFind jsons glyphsJsonName = some (JDoc.fonts fs) →
      findFont fs child.fontKey = none →
      child.glyphs ≠ [] →
      (processChild dpi pageH bookEnd jsons images cursor child).2
        = Except.error "TypeError: list indices must be integers") ∧
    (lookupGlyph font.glyphs g = some grec →
      grec.path.getD [] = [] →
      collectGlyphElems (some font) fontSize color xPos i (g :: gs)
        = collectGlyphElems (some font) fontSize color xPos (i + 1) gs) ∧
    (child.type = runName →
      alistFind jsons glyphsJsonName = some (JDoc.fonts fs) →
      findFont fs child.fontKey = some font →
      child.glyphs = g :: gs →
      lookupGlyph font.glyphs g = none →
      (processChild dpi pageH bookEnd jsons images cursor child).2
        = Except.error "KeyError: glyph") ∧
    (child.type = runName →
      alistFind jsons glyphsJsonName = some (JDoc.fonts fs) →
      findFont fs child.fontKey = some font →
      (∃ g2 ∈ child.glyphs, lookupGlyph font.glyphs g2 = none) →
      ∃ e, (processChild dpi pageH bookEnd jsons images cursor child).2
        = Except.error e) := by
  refine ⟨?_, ?_, ?_, ?_⟩
  · intro htype hdoc hfont hg
    rcases hgl : child.glyphs with _ | ⟨g0, gs0⟩
    · exact (hg hgl).elim
    · unfold processChild childDrawOps childBodyOps
      rw [if_pos htype, hdoc]
      dsimp only
      rw [hfont, hgl]
      rfl
  · intro hgl hpath
    have hstep : collectGlyphElems (some font) fontSize color xPos i (g :: gs)
        = match lookupGlyph font.glyphs g with
          | none => Except.error "KeyError: glyph"
          | some grec2 =>
            if grec2.path.getD [] = [] then
              collectGlyphElems (some font) fontSize color xPos (i + 1) gs
            else
              match xPos.get? i with
              | none => Except.error "IndexError: xPosition"
              | some x =>
                match collectGlyphElems (some font) fontSize color xPos
                    (i + 1) gs with
                | Except.ok rest =>
                    Except.ok (⟨x, fontSize / font.unitsPerEm,
                      stripMoves (grec2.path.getD []), color⟩ :: rest)
                | Except.error e => Except.error e := rfl
    rw [hstep, hgl]
    dsimp only
    rw [if_pos hpath]
  · intro htype hdoc hfont hgl hgmiss
    unfold processChild childDrawOps childBodyOps
    rw [if_pos htype, hdoc]
    dsimp only
    rw [hfont, hgl]
    have hcol : collectGlyphElems (some font) child.fontSize
        child.textColor child.xPosition 0 (g :: gs)
        = Except.error "KeyError: glyph" := by
      have hstep2 : collectGlyphElems (some font) child.fontSize
          child.textColor child.xPosition 0 (g :: gs)
          = match lookupGlyph font.glyphs g with
            | none => Except.error "KeyError: glyph"
            | some grec2 =>
              if grec2.path.getD [] = [] then
                collectGlyphElems (some font) child.fontSize child.textColor
                  child.xPosition (0 + 1) gs
              else
                match child.xPosition.get? 0 with
                | none => Except.error "IndexError: xPosition"
                | some x =>
                  match collectGlyphElems (some font) child.fontSize
                      child.textColor child.xPosition (0 + 1) gs with
                  | Except.ok rest2 =>
                      Except.ok (⟨x, child.fontSize / font.unitsPerEm,
                        stripMoves (grec2.path.getD []),
                        child.textColor⟩ :: rest2)
                  | Except.error e => Except.error e := rfl
      rw [hstep2, hgmiss]
    rw [hcol]
  · intro htype hdoc hfont hex
    obtain ⟨e, he⟩ := collectGlyphElems_missing_glyph font child.fontSize
      child.textColor child.xPosition child.glyphs 0 hex
    refine ⟨e, ?_⟩
    unfold processChild childDrawOps childBodyOps
    rw [if_pos htype, hdoc]
    dsimp only
    rw [hfont, he]

-- Concrete inputs for the missing-glyph-id half of the C6 witness: the
-- font record for key F holds only glyph id 7, while the run child
-- requests glyph id 9.
def c6Font : FontRec := ⟨String.toList "F", 1, [(7, ⟨none⟩)]⟩

def c6MissingGlyphChild : Child :=
  ⟨none, runName, ⟨1, 0, 0, 1, 0, 0⟩, 1, 1, String.toList "F", [9], [0], 1,
    [], [], none⟩

def c6Jsons2 : List (List Char × JDoc) :=
  [(glyphsJsonName, JDoc.fonts [c6Font])]

/-- Closed witness for the amended C6: the concrete batch of the
counterexample for the missing-font abort, a glyph with a missing path
for the silent-skip half, and a run requesting a glyph id absent from
its font record for the KeyError abort. -/
theorem c6_amended_lookup_failures_witness :
    (processChild 160 842 100 c6Jsons [] 0 c6RunChild).2
        = Except.error "TypeError: list indices must be integers" ∧
    (collectGlyphElems (some ⟨String.toList "F", 1, [(7, ⟨none⟩)]⟩) 1 [] []
        0 [7]
      = collectGlyphElems (some ⟨String.toList "F", 1, [(7, ⟨none⟩)]⟩) 1 []
        [] 1 []) ∧
    (processChild 160 842 100 c6Jsons2 [] 0 c6MissingGlyphChild).2
        = Except.error "KeyError: glyph" ∧
    ∃ e, (processChild 160 842 100 c6Jsons2 [] 0 c6MissingGlyphChild).2
        = Except.error e :=
  ⟨(c6_amended_lookup_failures 160 842 100 c6Jsons [] 0 c6RunChild []
      ⟨String.toList "F", 1, [(7, ⟨none⟩)]⟩ 1 [] [] 0 7 [] ⟨none⟩).1
      (by rfl) (by rfl) (by rfl) (by decide),
   (c6_amended_lookup_failures 160 842 100 c6Jsons [] 0 c6RunChild []
      ⟨String.toList "F", 1, [(7, ⟨none⟩)]⟩ 1 [] [] 0 7 [] ⟨none⟩).2.1
      (by rfl) (by rfl),
   (c6_amended_lookup_failures 160 842 100 c6Jsons2 [] 0
      c6MissingGlyphChild [c6Font] c6Font 1 [] [] 0 9 [] ⟨none⟩).2.2.1
      (by rfl) (by rfl) (by rfl) (by rfl) (by rfl),
   (c6_amended_lookup_failures 160 842 100 c6Jsons2 [] 0
      c6MissingGlyphChild [c6Font] c6Font 1 [] [] 0 9 [] ⟨none⟩).2.2.2
      (by rfl) (by rfl) (by rfl) ⟨9, by decide, by rfl⟩⟩

-- ## Leading relative-move stripping (claim C9).

theorem dropWhile_length_le (p : Char → Bool) (l : List Char) :
    (l.dropWhile p).length ≤ l.length := by
  induction l with
  | nil => simp
  | cons a t ih =>
      by_cases hp : p a
      · simp only [List.dropWhile_cons, hp, if_true, List.length_cons]
        omega
      · simp [List.dropWhile_cons, hp]

theorem stripMovesAux_congr :
    ∀ (f1 f2 : Nat) (l : List Char), l.length ≤ f1 → l.length ≤ f2 →
      stripMovesAux f1 l = stripMovesAux f2 l := by
  intro f1
  induction f1 with
  | zero =>
      intro f2 l h1 h2
      have hl : l = [] := by
        cases l with
        | nil => rfl
        | cons c cs => simp at h1
      subst hl
      cases f2 <;> rfl
  | succ f1 ih =>
      intro f2 l h1 h2
      cases l with
      | nil => cases f2 <;> rfl
      | cons c cs =>
          cases f2 with
          | zero => simp at h2
          | succ f2 =>
              have hcs1 : cs.length ≤ f1 := by
                simp only [List.length_cons] at h1
                omega
              have hcs2 : cs.length ≤ f2 := by
                simp only [List.length_cons] at h2
                omega
              simp only [stripMovesAux]
              by_cases hcond : (c = 'm' && headIsMoveArg cs) = true
              · rw [if_pos hcond, if_pos hcond]
                exact ih f2 (cs.dropWhile moveArg)
                  (le_trans (dropWhile_length_le _ _) hcs1)
                  (le_trans (dropWhile_length_le _ _) hcs2)
              · rw [if_neg hcond, if_neg hcond, ih f2 cs hcs1 hcs2]

theorem dropWhile_append_of_all (p : Char → Bool) (s t : List Char)
    (hs : ∀ c ∈ s, p c = true) :
    (s ++ t).dropWhile p = t.dropWhile p := by
  induction s with
  | nil => simp
  | cons a s ih =>
      have ha : p a = true := hs a (by simp)
      simp only [List.cons_append, List.dropWhile_cons, ha, if_true]
      exact ih fun c hc => hs c (by simp [hc])

theorem dropWhile_of_head_false (t : List Char)
    (ht : headIsMoveArg t = false) : t.dropWhile moveArg = t := by
  cases t with
  | nil => rfl
  | cons d t =>
      simp only [headIsMoveArg] at ht
      simp [List.dropWhile_cons, ht]

theorem stripMoves_move_run (s t : List Char)
    (hs : ∀ c ∈ s, moveArg c = true) (hsne : s ≠ [])
    (ht : headIsMoveArg t = false) :
    stripMoves ('m' :: (s ++ t)) = stripMoves t := by
  rcases s with _ | ⟨d, s'⟩
  · exact (hsne rfl).elim
  · have hd : moveArg d = true := hs d (by simp)
    have hcond : (('m' : Char) = 'm' && headIsMoveArg ((d :: s') ++ t))
        = true := by
      simp [headIsMoveArg, hd]
    have hstep0 : stripMoves ('m' :: ((d :: s') ++ t))
        = if (('m' : Char) = 'm' && headIsMoveArg ((d :: s') ++ t)) = true
          then
            stripMovesAux (((d :: s') ++ t).length)
              (((d :: s') ++ t).dropWhile moveArg)
          else
            'm' :: stripMovesAux (((d :: s') ++ t).length)
              ((d :: s') ++ t) := rfl
    have hstep : stripMoves ('m' :: ((d :: s') ++ t))
        = stripMovesAux (((d :: s') ++ t).length)
            (((d :: s') ++ t).dropWhile moveArg) := by
      rw [hstep0, if_pos hcond]
    rw [hstep, dropWhile_append_of_all moveArg (d :: s') t hs,
      dropWhile_of_head_false t ht]
    have hlen : t.length ≤ ((d :: s') ++ t).length := by
      simp only [List.cons_append, List.length_cons, List.length_append]
      omega
    exact stripMovesAux_congr _ _ t hlen (le_refl t.length)

/-- C9: the path string placed in the composed drawing for a run glyph is
the glyph path with relative-move runs stripped; in particular, for a
glyph path beginning with a relative-move prefix (the character m
followed by a run of numeric characters), the path string appearing in
the composed SVG has that prefix removed. -/
theorem c9_move_run_stripped (fontSize : ℚ) (color : List Char)
    (xPos : List ℚ) (font : FontRec) (g : Nat) (grec : GlyphRec)
    (i : Nat) (x : ℚ) (s t : List Char)
    (hg : lookupGlyph font.glyphs g = some grec)
    (hpath : grec.path = some ('m' :: (s ++ t)))
    (hs : ∀ c ∈ s, moveArg c = true) (hsne : s ≠ [])
    (ht : headIsMoveArg t = false)
    (hx : xPos.get? i = some x) :
    collectGlyphElems (some font) fontSize color xPos i [g]
        = Except.ok [⟨x, fontSize / font.unitsPerEm, stripMoves t, color⟩] ∧
    stripMoves ('m' :: (s ++ t)) = stripMoves t := by
  have hmain := stripMoves_move_run s t hs hsne ht
  refine ⟨?_, hmain⟩
  have hne : ¬ grec.path.getD [] = [] := by
    rw [hpath]
    simp
  have hstep : collectGlyphElems (some font) fontSize color xPos i [g]
      = match lookupGlyph font.glyphs g with
        | none => Except.error "KeyError: glyph"
        | some grec2 =>
          if grec2.path.getD [] = [] then
            collectGlyphElems (some font) fontSize color xPos (i + 1) []
          else
            match xPos.get? i with
            | none => Except.error "IndexError: xPosition"
            | some x =>
              match collectGlyphElems (some font) fontSize color xPos
                  (i + 1) [] with
              | Except.ok rest =>
                  Except.ok (⟨x, fontSize / font.unitsPerEm,
                    stripMoves (grec2.path.getD []), color⟩ :: rest)
              | Except.error e => Except.error e := rfl
  rw [hstep, hg]
  dsimp only
  rw [if_neg hne, hx]
  have hnil : collectGlyphElems (some font) fontSize color xPos (i + 1) []
      = Except.ok [] := rfl
  rw [hnil]
  dsimp only
  rw [hpath]
  simp only [Option.getD_some]
  rw [hmain]

/-- Closed witness for C9 on the glyph path m1L2 (relative-move prefix
m1, remainder L2). -/
theorem c9_move_run_stripped_witness :
    collectGlyphElems (some ⟨String.toList "F", 2,
          [(5, ⟨some ('m' :: (['1'] ++ ['L', '2']))⟩)]⟩) 12 [] [3] 0 [5]
        = Except.ok [⟨3, 12 / 2, stripMoves ['L', '2'], []⟩] ∧
    stripMoves ('m' :: (['1'] ++ ['L', '2'])) = stripMoves ['L', '2'] :=
  c9_move_run_stripped 12 [] [3]
    ⟨String.toList "F", 2, [(5, ⟨some ('m' :: (['1'] ++ ['L', '2']))⟩)]⟩
    5 ⟨some ('m' :: (['1'] ++ ['L', '2']))⟩ 0 3 ['1'] ['L', '2']
    (by rfl) (by rfl) (by decide) (by decide) (by decide) (by rfl)

-- ## Fatal decryption failures (claim C7): the save operation is only
-- reachable when the pagination loop runs to completion.

theorem save_not_mem_bookmarkOps (c b : Nat) :
    CanvasOp.save ∉ bookmarkOps c b := by
  unfold bookmarkOps
  intro hmem
  rw [List.mem_map] at hmem
  obtain ⟨n, _, hn⟩ := hmem
  cases hn

theorem save_not_mem_startBookmarkOps (cursor : Nat) (child : Child) :
    CanvasOp.save ∉ startBookmarkOps cursor child := by
  unfold startBookmarkOps
  rcases child.startPositionId with _ | b
  · simp
  · dsimp only
    exact save_not_mem_bookmarkOps cursor (b + 1)

theorem save_not_mem_linkOpsFor (dpi pageH : ℚ) (bookEnd : Nat)
    (child : Child) : CanvasOp.save ∉ linkOpsFor dpi pageH bookEnd child := by
  unfold linkOpsFor
  rcases child.link with _ | dest
  · simp
  · dsimp only
    split
    · intro hmem
      rw [List.mem_singleton] at hmem
      cases hmem
    · simp

theorem save_not_mem_childDrawOps (dpi pageH : ℚ) (bookEnd : Nat)
    (jsons : List (List Char × JDoc)) (images : List (List Char × List Nat))
    (child : Child) (dops : List CanvasOp)
    (h : childDrawOps dpi pageH bookEnd jsons images child
      = Except.ok dops) : CanvasOp.save ∉ dops := by
  obtain ⟨dops0, rfl, hshape⟩ :=
    childDrawOps_ok_shape dpi pageH bookEnd jsons images child dops h
  intro hmem
  rcases List.mem_append.mp hmem with h1 | h2
  · rcases hshape _ h1 with ⟨m, e, he⟩ | ⟨x, y, w, hh, r, he⟩ <;> cases he
  · exact save_not_mem_linkOpsFor dpi pageH bookEnd child h2

theorem processChild_no_save (dpi pageH : ℚ) (bookEnd : Nat)
    (jsons : List (List Char × JDoc)) (images : List (List Char × List Nat))
    (cursor : Nat) (child : Child) :
    CanvasOp.save
      ∉ (processChild dpi pageH bookEnd jsons images cursor child).1 := by
  unfold processChild
  cases hbody : childDrawOps dpi pageH bookEnd jsons images child with
  | error e =>
      dsimp only
      exact save_not_mem_startBookmarkOps cursor child
  | ok dops =>
      dsimp only
      intro hmem
      rcases List.mem_append.mp hmem with h1 | h2
      · exact save_not_mem_startBookmarkOps cursor child h1
      · exact save_not_mem_childDrawOps dpi pageH bookEnd jsons images child
          dops hbody h2

theorem processChildren_no_save (dpi pageH : ℚ) (bookEnd : Nat)
    (jsons : List (List Char × JDoc)) (images : List (List Char × List Nat)) :
    ∀ (cs : List Child) (cursor : Nat),
      CanvasOp.save
        ∉ (processChildren dpi pageH bookEnd jsons images cursor cs).1 := by
  intro cs
  induction cs with
  | nil =>
      intro cursor
      simp [processChildren]
  | cons c cs ih =>
      intro cursor
      simp only [processChildren]
      cases hc : processChild dpi pageH bookEnd jsons images cursor c with
      | mk ops1 r1 =>
          have hns := processChild_no_save dpi pageH bookEnd jsons images
            cursor c
          rw [hc] at hns
          cases r1 with
          | error e =>
              dsimp only
              exact hns
          | ok cur2 =>
              dsimp only
              cases hrec : processChildren dpi pageH bookEnd jsons images
                  cur2 cs with
              | mk ops2 r2 =>
                  have hns2 := ih cur2
                  rw [hrec] at hns2
                  dsimp only
                  intro hmem
                  rcases List.mem_append.mp hmem with h1 | h2
                  · exact hns h1
                  · exact hns2 h2

theorem processPage_no_save (dpi pageH : ℚ) (bookEnd : Nat)
    (jsons : List (List Char × JDoc)) (images : List (List Char × List Nat))
    (cursor : Nat) (page : Page) :
    CanvasOp.save
      ∉ (processPage dpi pageH bookEnd jsons images cursor page).1 := by
  unfold processPage
  cases hch : processChildren dpi pageH bookEnd jsons images cursor
      page.children with
  | mk ops1 r1 =>
      have hns := processChildren_no_save dpi pageH bookEnd jsons images
        page.children cursor
      rw [hch] at hns
      cases r1 with
      | error e =>
          dsimp only
          exact hns
      | ok cur2 =>
          dsimp only
          intro hmem
          rcases List.mem_append.mp hmem with h1 | h2
          · rcases List.mem_append.mp h1 with h3 | h4
            · exact hns h3
            · exact save_not_mem_bookmarkOps cur2 (page.endPositionId + 1) h4
          · rw [List.mem_singleton] at h2
            cases h2

theorem processPages_no_save (dpi pageH : ℚ) (bookEnd : Nat)
    (jsons : List (List Char × JDoc)) (images : List (List Char × List Nat)) :
    ∀ (ps : List Page) (cursor : Nat),
      CanvasOp.save
        ∉ (processPages dpi pageH bookEnd jsons images cursor ps).1 := by
  intro ps
  induction ps with
  | nil =>
      intro cursor
      simp [processPages]
  | cons p ps ih =>
      intro cursor
      simp only [processPages]
      cases hp : processPage dpi pageH bookEnd jsons images cursor p with
      | mk ops1 r1 =>
          have hns := processPage_no_save dpi pageH bookEnd jsons images
            cursor p
          rw [hp] at hns
          cases r1 with
          | error e =>
              dsimp only
              exact hns
          | ok cur2 =>
              dsimp only
              cases hrec : processPages dpi pageH bookEnd jsons images
                  cur2 ps with
              | mk ops2 r2 =>
                  have hns2 := ih cur2
                  rw [hrec] at hns2
                  dsimp only
                  intro hmem
                  rcases List.mem_append.mp hmem with h1 | h2
                  · exact hns h1
                  · exact hns2 h2

theorem renderPdf_no_save (dpi pageH : ℚ) (bookEnd : Nat)
    (jsons : List (List Char × JDoc)) (images : List (List Char × List Nat))
    (startPos : Nat) :
    CanvasOp.save
      ∉ (renderPdf dpi pageH bookEnd jsons images startPos).1 := by
  unfold renderPdf
  cases hf : findPages jsons with
  | error e => simp
  | ok pages =>
      dsimp only
      exact processPages_no_save dpi pageH bookEnd jsons images pages
        startPos

theorem renderBookLoop_error_no_save (E kdf : List Nat → List Nat → List Nat)
    (fetch : Nat → RawBatch) (auth : Auth) (dpi pageH : ℚ) (endPos : Nat) :
    ∀ (fuel cursor : Nat) (ops : List CanvasOp) (e : String),
      renderBookLoop E kdf fetch auth dpi pageH endPos fuel cursor
          = (ops, Except.error e) →
      CanvasOp.save ∉ ops := by
  intro fuel
  induction fuel with
  | zero =>
      intro cursor ops e h
      simp only [renderBookLoop, Prod.mk.injEq] at h
      rw [← h.1]
      simp
  | succ fuel ih =>
      intro cursor ops e h
      simp only [renderBookLoop] at h
      split at h
      · cases hdec : decryptImages E kdf auth (fetch cursor).rawImages with
        | error e2 =>
            rw [hdec] at h
            simp only [Prod.mk.injEq] at h
            rw [← h.1]
            simp
        | ok images =>
            rw [hdec] at h
            dsimp only at h
            split at h
            · simp only [Prod.mk.injEq] at h
              rw [← h.1]
              simp
            · cases hpdf : renderPdf dpi pageH endPos (fetch cursor).jsons
                  images cursor with
              | mk ops1 r1 =>
                  rw [hpdf] at h
                  have hns := renderPdf_no_save dpi pageH endPos
                    (fetch cursor).jsons images cursor
                  rw [hpdf] at hns
                  cases r1 with
                  | error e2 =>
                      dsimp only at h
                      simp only [Prod.mk.injEq] at h
                      rw [← h.1]
                      exact hns
                  | ok cur2 =>
                      dsimp only at h
                      cases hrec : renderBookLoop E kdf fetch auth dpi pageH
                          endPos fuel cur2 with
                      | mk ops2 r2 =>
                          rw [hrec] at h
                          simp only [Prod.mk.injEq] at h
                          obtain ⟨hops, hr⟩ := h
                          rw [← hops]
                          intro hmem
                          rcases List.mem_append.mp hmem with h1 | h2
                          · exact hns h1
                          · exact ih cur2 ops2 e (by rw [hrec, hr]) h2
      · simp only [Prod.mk.injEq] at h
        exact absurd h.2 (by simp)

/-- C7: if authenticated decryption of any payload of a fetched batch
fails, the error propagates as a fatal batch error out of decrypt_images
(nothing is drawn for that batch), the conversion run aborts with that
error, and the canvas save operation is never emitted, so no output file
is produced as complete. -/
theorem c7_decryption_failure_fatal (E kdf : List Nat → List Nat → List Nat)
    (fetch : Nat → RawBatch) (auth : Auth) (dpi pageH : ℚ) (endPos : Nat) :
    (∀ (fuel cursor : Nat) (e : String), cursor ≤ endPos →
        decryptImages E kdf auth (fetch cursor).rawImages
          = Except.error e →
        renderBookLoop E kdf fetch auth dpi pageH endPos (fuel + 1) cursor
          = ([], Except.error e)) ∧
    ∀ (fuel startPos : Nat) (ops : List CanvasOp) (e : String),
      renderBook E kdf fetch auth dpi pageH endPos fuel startPos
          = (ops, Except.error e) →
      CanvasOp.save ∉ ops := by
  constructor
  · intro fuel cursor e hle hdec
    simp only [renderBookLoop, if_pos hle, hdec]
  · intro fuel startPos ops e h
    unfold renderBook at h
    cases hloop : renderBookLoop E kdf fetch auth dpi pageH endPos fuel
        startPos with
    | mk ops1 r1 =>
        rw [hloop] at h
        dsimp only at h
        simp only [Prod.mk.injEq] at h
        obtain ⟨hops, hr⟩ := h
        rw [← hops]
        intro hmem
        rw [List.mem_cons] at hmem
        rcases hmem with h1 | h2
        · cases h1
        · exact renderBookLoop_error_no_save E kdf fetch auth dpi pageH
            endPos fuel startPos ops1 e (by rw [hloop, hr]) h2

-- Concrete failing batch for the C7 witness: image bytes that are not a
-- valid encrypted payload.
def c7Fetch : Nat → RawBatch :=
  fun _ => ⟨[(glyphsJsonName, JDoc.fonts [])],
    [(String.toList "img", [255, 216, 255])]⟩

/-- Closed witness for C7: a batch whose sole payload fails to decrypt
aborts the run with the decryption error, and the emitted canvas trace
(the title operation alone) holds no save. -/
theorem c7_decryption_failure_fatal_witness :
    renderBookLoop toyE toyKdf c7Fetch toyAuth 160 842 10 1 0
        = ([], Except.error "binascii") ∧
    CanvasOp.save ∉ [CanvasOp.setTitle] :=
  ⟨(c7_decryption_failure_fatal toyE toyKdf c7Fetch toyAuth 160 842 10).1
      0 0 "binascii" (by decide) (by rfl),
   (c7_decryption_failure_fatal toyE toyKdf c7Fetch toyAuth 160 842 10).2
      1 0 [CanvasOp.setTitle] "binascii" (by rfl)⟩

/-- Closed witness for C10 on a batch holding only a font table. -/
theorem c10_no_page_data_noop_witness :
    renderPdf 160 842 100 [(glyphsJsonName, JDoc.fonts [])] [] 3
      = ([], Except.ok 3) :=
  c10_no_page_data_noop 160 842 100 [(glyphsJsonName, JDoc.fonts [])] [] 3
    (by
      intro name doc hmem
      simp only [List.mem_singleton, Prod.mk.injEq] at hmem
      rw [hmem.1]
      decide)

end Kindle2PDF
